import Mathlib

/-
Verification of the ECS (Entity-Component-System) runtime documented in this
repository: entity references (Ref), archetype/chunk columnar storage,
queries, the command buffer, and the system scheduler.

The documentation pages under src/ show the public surface (Ref.isValid,
HealthComponent, Query combinators, CommandBuffer usage) as Java snippets;
the storage and scheduling algorithms themselves are described in the
specification only.  Definitions below that embed snippet code are taken
from the snippets; definitions for the algorithmic core are modelled from
the specification and say so in their doc comments.
-/

namespace ECS

/-- Dense integer id assigned to a component type by the ComponentRegistry. -/
abbrev TypeId := Nat

/-- An archetype signature: the list of component-type ids, canonical form
being sorted and duplicate-free. -/
abbrev Signature := List TypeId

/-! ## Query (modelled from the spec)

Modelled from the spec: `Query` is "a composable predicate over
component-type ids: and(types...), or(types...), not(type), any()";
"a query matches an archetype if the archetype's signature satisfies the
boolean expression".  The snippets show a single component type used as a
query and nested combinations such as and(healthType, not(deadMarkerType)),
so the combinators take queries and a component type embeds as a query. -/
inductive Query where
  | comp (t : TypeId) : Query
  | and (a b : Query) : Query
  | or (a b : Query) : Query
  | not (q : Query) : Query
  | any : Query
deriving DecidableEq, Repr

/-- Modelled from the spec: evaluation of a query against an archetype
signature, "a query matches an archetype if the archetype's signature
satisfies the boolean expression". -/
def Query.matches : Query → Signature → Bool
  | .comp t, sig => sig.contains t
  | .and a b, sig => a.matches sig && b.matches sig
  | .or a b, sig => a.matches sig || b.matches sig
  | .not q, sig => !(q.matches sig)
  | .any, _ => true

/-! ## HealthComponent (from src/unnamed/part_001, lines 66-105)

The Java snippet stores health in `float` fields; the embedding uses `ℚ`
for the numeric values, which is faithful for the min/max/subtraction
operations the snippet performs. -/
structure HealthComponent where
  maxHealth : ℚ
  currentHealth : ℚ
deriving DecidableEq, Repr

/-- Constructor `HealthComponent(float maxHealth)`: sets both fields. -/
def HealthComponent.mk1 (maxHealth : ℚ) : HealthComponent :=
  { maxHealth := maxHealth, currentHealth := maxHealth }

/-- `setCurrentHealth(float health) { this.currentHealth = Math.min(health, maxHealth); }` -/
def HealthComponent.setCurrentHealth (c : HealthComponent) (health : ℚ) :
    HealthComponent :=
  { c with currentHealth := min health c.maxHealth }

/-- `damage(float amount) { this.currentHealth = Math.max(0, currentHealth - amount); }` -/
def HealthComponent.damage (c : HealthComponent) (amount : ℚ) : HealthComponent :=
  { c with currentHealth := max 0 (c.currentHealth - amount) }

/-! ## Entity references (from src/unnamed/part_001 lines 23-30 and
src/unnamed/part_009 lines 348-356)

`Ref` in the snippets is a mutable object (`private volatile int index`)
whose aliases share the single index field; the store is the only writer.
The embedding therefore keeps every Ref object's index field in a
store-side table (`Store.refs`, below) and a user-held alias is the object
identity, a stable small integer assigned at entity creation. -/

/-- `Integer.MIN_VALUE`, the reserved sentinel index denoting an
invalid/stale reference. -/
def MIN_VALUE : Int := -2147483648

/-- A user-held alias of a Ref object: the object identity.  Two aliases
of the same Ref have the same `id` and hence read the same index field. -/
structure Ref where
  id : Nat
deriving DecidableEq, Repr

/-- First index satisfying a boolean predicate, or `none`. -/
def findIdxP {α : Type} (p : α → Bool) : List α → Option Nat
  | [] => none
  | x :: xs => if p x then some 0 else (findIdxP p xs).map (· + 1)

/-! ## Canonical signatures

Modelled from the spec: archetypes are "canonicalized by sorted signature
equality, not insertion order"; the signature is a "sorted set of
component-type ids". -/

/-- Canonical form of a list of component-type ids: duplicates removed,
then sorted ascending. -/
def canon (l : List TypeId) : Signature :=
  (l.dedup).insertionSort (· ≤ ·)

/-! ## Columnar storage (modelled from the spec)

Modelled from the spec: ArchetypeChunk is a "fixed-capacity columnar block;
one contiguous array per component type in the archetype, plus free-slot
bookkeeping"; occupied slots are a contiguous prefix [0, count) maintained
via swap-remove.  Component payloads are embedded as natural numbers; the
store algorithms never inspect them. -/

/-- A component value.  The storage algorithms are payload-agnostic. -/
abbrev Val := Nat

/-- A fixed-capacity columnar chunk: one slot-indexed array of entity ids
and one slot-indexed array per component type of the archetype's
signature, plus the occupied-slot count (free-slot bookkeeping). -/
structure Chunk where
  entities : List (Option Nat)
  cols : List (List (Option Val))
  count : Nat
deriving DecidableEq, Repr

/-- A fresh chunk of the configured capacity: all slots free. -/
def emptyChunk (cap nCols : Nat) : Chunk :=
  { entities := List.replicate cap none,
    cols := List.replicate nCols (List.replicate cap none),
    count := 0 }

/-- Write value `vals.k` into slot `j` of column `k`, for every column. -/
def setSlotAll (cols : List (List (Option Val))) (j : Nat) :
    List Val → List (List (Option Val))
  | [] => cols
  | v :: vs =>
    match cols with
    | [] => []
    | c :: cs => c.set j (some v) :: setSlotAll cs j vs

/-- Modelled from the spec: an entity is assigned "the first available
chunk slot"; within a chunk the first free slot is `count`, the end of the
occupied prefix. -/
def Chunk.pushRow (c : Chunk) (e : Nat) (vals : List Val) : Chunk :=
  { entities := c.entities.set c.count (some e),
    cols := setSlotAll c.cols c.count vals,
    count := c.count + 1 }

/-- Modelled from the spec: swap-remove — "the last occupied slot is moved
into the freed slot", then the last slot is cleared and the count drops. -/
def Chunk.swapRemove (c : Chunk) (i : Nat) : Chunk :=
  { entities := (c.entities.set i (c.entities.getD (c.count - 1) none)).set (c.count - 1) none,
    cols := c.cols.map (fun col => (col.set i (col.getD (c.count - 1) none)).set (c.count - 1) none),
    count := c.count - 1 }

/-- Modelled from the spec: an Archetype is "an immutable signature (sorted
set of component-type ids) plus the list of chunks holding entities with
exactly that signature". -/
structure Archetype where
  sig : Signature
  chunks : List Chunk
deriving DecidableEq, Repr

/-- Placeholder archetype used as the `getD` default; never reached on
indices validated by the store invariant. -/
def emptyArch : Archetype := { sig := [], chunks := [] }

/-- `archetype.contains(type)` from src/unnamed/part_001 lines 341-347. -/
def Archetype.containsType (a : Archetype) (t : TypeId) : Bool :=
  a.sig.contains t

/-- Modelled from the spec: "when no existing chunk in the archetype has a
free slot, allocate a new chunk sized to the configured capacity; chunks
are never resized, only added".  Returns the updated archetype plus the
chunk index and slot the row went to. -/
def Archetype.insertRow (a : Archetype) (cap : Nat) (e : Nat) (vals : List Val) :
    Archetype × Nat × Nat :=
  match findIdxP (fun c => decide (c.count < cap)) a.chunks with
  | some ci =>
    let c := a.chunks.getD ci (emptyChunk cap a.sig.length)
    ({ a with chunks := a.chunks.set ci (c.pushRow e vals) }, ci, c.count)
  | none =>
    ({ a with chunks := a.chunks ++ [(emptyChunk cap a.sig.length).pushRow e vals] },
     a.chunks.length, 0)

/-- The (archetype index, chunk index, in-chunk slot) triple a valid Ref
resolves to at the moment of access. -/
structure EntityLoc where
  arch : Nat
  chunk : Nat
  slot : Nat
deriving DecidableEq, Repr

/-- Modelled from the spec: the Store "owns the registry, the set of
archetypes, resources, and the system list".  The parts the claims range
over are embedded: the archetype list, the per-Ref-object index fields
(`refs`), the index bookkeeping mapping entity ids to their current
storage triple (`locs`), the fresh-id counter and the configured chunk
capacity. -/
structure Store where
  cap : Nat
  archetypes : List Archetype
  refs : List Int
  locs : List (Option EntityLoc)
  nextId : Nat
deriving DecidableEq, Repr

/-- A store with no entities and no archetypes yet. -/
def Store.init (cap : Nat) : Store :=
  { cap := cap, archetypes := [], refs := [], locs := [], nextId := 0 }

/-- `isValid()` from src/unnamed/part_001 lines 23-30:
`return index != Integer.MIN_VALUE;`, the index field read through the
store-side table of Ref objects. -/
def Store.refIndex (s : Store) (r : Ref) : Int :=
  s.refs.getD r.id MIN_VALUE

/-- `isValid()` from the snippet: true iff the Ref's index field differs
from the reserved sentinel `Integer.MIN_VALUE`. -/
def Store.isValid (s : Store) (r : Ref) : Bool :=
  s.refIndex r != MIN_VALUE

/-- Modelled from the spec: `Store.archetypeFor(signature)` "returns
existing or atomically creates a new archetype (canonicalized by sorted
signature equality, not insertion order)".  The argument is already
canonical.  Returns the archetype's index and the (possibly extended)
store. -/
def Store.archetypeFor (s : Store) (sig : Signature) : Nat × Store :=
  match findIdxP (fun a => decide (a.sig = sig)) s.archetypes with
  | some i => (i, s)
  | none =>
    (s.archetypes.length,
     { s with archetypes := s.archetypes ++ [{ sig := sig, chunks := [] }] })

/-- Modelled from the spec: a valid Ref "resolves to exactly one
(archetype, chunk, in-chunk-offset) triple at the moment of access"; a
sentinel index resolves to nothing. -/
def Store.resolve (s : Store) (r : Ref) : Option EntityLoc :=
  let idx := s.refIndex r
  if idx = MIN_VALUE then none else s.locs.getD idx.toNat none

/-- Read the component column `t` at a storage triple. -/
def Store.readAt (s : Store) (loc : EntityLoc) (t : TypeId) : Option Val :=
  let a := s.archetypes.getD loc.arch emptyArch
  (findIdxP (fun u => decide (u = t)) a.sig).bind fun k =>
    ((a.chunks.getD loc.chunk (emptyChunk s.cap a.sig.length)).cols.getD k []).getD
      loc.slot none

/-- `getComponent(ref, type)` (spec §4.1, usage in src/unnamed/part_001
lines 161-171): "O(1) resolve via slot lookup then column index; returns
absent (not an error) if the entity's archetype lacks type". -/
def Store.getComponent (s : Store) (r : Ref) (t : TypeId) : Option Val :=
  (s.resolve r).bind fun loc => s.readAt loc t

/-- Raised by `ensureAndGetComponent` when the component is absent. -/
inductive MissingComponentError where
  | missing : MissingComponentError
deriving DecidableEq, Repr

/-- `ensureAndGetComponent(ref, type)` (spec §4.1, usage in
src/unnamed/part_001 lines 176-178): "same as above but signals a
MissingComponentError if absent". -/
def Store.ensureAndGetComponent (s : Store) (r : Ref) (t : TypeId) :
    Except MissingComponentError Val :=
  match s.getComponent r t with
  | none => .error .missing
  | some v => .ok v

/-- `getArchetype(ref)` (spec §4.1, usage in src/unnamed/part_001 lines
341-347): the entity's current archetype signature, for
`archetype.contains(type)` checks. -/
def Store.getArchetype (s : Store) (r : Ref) : Option Signature :=
  (s.resolve r).bind fun loc =>
    if loc.arch < s.archetypes.length then
      some (s.archetypes.getD loc.arch emptyArch).sig
    else none

/-! ## Structural mutations (modelled from the spec)

Modelled from the spec §3 Lifecycle and §4.5: the four command-buffer
operations, applied at flush time. -/

/-- A Holder template: an unattached ordered bag of component values used
to spawn entities (spec §6 Template API). -/
abbrev Template := List (TypeId × Val)

/-- The value a template supplies for a component type (first occurrence). -/
def tmplGet (tm : Template) (t : TypeId) : Option Val :=
  (tm.find? (fun p => decide (p.1 = t))).map Prod.snd

/-- Modelled from the spec: applying AddEntity assigns the entity "to the
archetype matching its initial component set and the first available chunk
slot (allocating a new chunk if none has room)"; its Ref object starts
valid and the index bookkeeping records the storage triple. -/
def Store.spawn (s : Store) (tm : Template) : Store :=
  let sig := canon (tm.map Prod.fst)
  let p := s.archetypeFor sig
  let a := p.2.archetypes.getD p.1 emptyArch
  let vals := sig.map (fun t => (tmplGet tm t).getD 0)
  let q := a.insertRow s.cap s.nextId vals
  { p.2 with
    archetypes := p.2.archetypes.set p.1 q.1,
    refs := p.2.refs ++ [(s.nextId : Int)],
    locs := p.2.locs ++ [some { arch := p.1, chunk := q.2.1, slot := q.2.2 }],
    nextId := s.nextId + 1 }

/-- Modelled from the spec: applying RemoveEntity frees the slot via
swap-remove, updates the moved entity's index bookkeeping, clears the
removed entity's bookkeeping and marks its Ref invalid (sentinel index).
A command referencing an already-invalid Ref is a logged no-op. -/
def Store.despawn (s : Store) (r : Ref) : Store :=
  match s.resolve r with
  | none => s
  | some loc =>
    let a := s.archetypes.getD loc.arch emptyArch
    let c := a.chunks.getD loc.chunk (emptyChunk s.cap a.sig.length)
    let moved := c.entities.getD (c.count - 1) none
    let a2 := { a with chunks := a.chunks.set loc.chunk (c.swapRemove loc.slot) }
    let locs1 :=
      if loc.slot = c.count - 1 then s.locs
      else match moved with
        | some m =>
          s.locs.set m (some { arch := loc.arch, chunk := loc.chunk, slot := loc.slot })
        | none => s.locs
    { s with
      archetypes := s.archetypes.set loc.arch a2,
      locs := locs1.set (s.refIndex r).toNat none,
      refs := s.refs.set r.id MIN_VALUE }

/-- Modelled from the spec: archetype migration — "existing component data
common to old and new signatures is copied to the destination chunk slot,
the source slot is freed via swap-remove, and the Ref's resolved location
is updated — the Ref value itself never changes, only what it resolves
to".  `vals` is the destination row, already aligned with `newSig`. -/
def Store.migrate (s : Store) (r : Ref) (loc : EntityLoc) (newSig : Signature)
    (vals : List Val) : Store :=
  let e := (s.refIndex r).toNat
  let p := s.archetypeFor newSig
  let s1 := p.2
  let aDst := s1.archetypes.getD p.1 emptyArch
  let q := aDst.insertRow s.cap e vals
  let s2 := { s1 with archetypes := s1.archetypes.set p.1 q.1 }
  let aSrc := s2.archetypes.getD loc.arch emptyArch
  let c := aSrc.chunks.getD loc.chunk (emptyChunk s.cap aSrc.sig.length)
  let moved := c.entities.getD (c.count - 1) none
  let s3 := { s2 with
    archetypes := s2.archetypes.set loc.arch
      { aSrc with chunks := aSrc.chunks.set loc.chunk (c.swapRemove loc.slot) } }
  let locs1 :=
    if loc.slot = c.count - 1 then s3.locs
    else Option.elim moved s3.locs (fun m =>
      s3.locs.set m (some { arch := loc.arch, chunk := loc.chunk, slot := loc.slot }))
  { s3 with locs := locs1.set e (some { arch := p.1, chunk := q.2.1, slot := q.2.2 }) }

/-- Modelled from the spec: applying AddComponent.  If the type is already
present the value is written in place (no structural change); otherwise
the entity migrates to the archetype whose signature also contains the new
type, carrying its existing data plus the new value.  An invalid Ref is a
logged no-op. -/
def Store.applyAddComponent (s : Store) (r : Ref) (t : TypeId) (v : Val) : Store :=
  match s.resolve r with
  | none => s
  | some loc =>
    let a := s.archetypes.getD loc.arch emptyArch
    if t ∈ a.sig then
      match findIdxP (fun u => decide (u = t)) a.sig with
      | none => s
      | some k =>
        let c := a.chunks.getD loc.chunk (emptyChunk s.cap a.sig.length)
        let c2 := { c with cols := c.cols.set k ((c.cols.getD k []).set loc.slot (some v)) }
        let a2 := { a with chunks := a.chunks.set loc.chunk c2 }
        { s with archetypes := s.archetypes.set loc.arch a2 }
    else
      let newSig := canon (t :: a.sig)
      let vals := newSig.map (fun u => if u = t then v else (s.readAt loc u).getD 0)
      s.migrate r loc newSig vals

/-- Modelled from the spec: applying RemoveComponent migrates the entity to
the archetype whose signature lacks the type, carrying the remaining data.
An invalid Ref, or an absent component, is a logged no-op. -/
def Store.applyRemoveComponent (s : Store) (r : Ref) (t : TypeId) : Store :=
  match s.resolve r with
  | none => s
  | some loc =>
    let a := s.archetypes.getD loc.arch emptyArch
    if t ∈ a.sig then
      let newSig := a.sig.erase t
      let vals := newSig.map (fun u => (s.readAt loc u).getD 0)
      s.migrate r loc newSig vals
    else s

/-- A command-buffer entry (spec §3): a tagged structural mutation. -/
inductive Cmd where
  | addEntity (tm : Template)
  | removeEntity (r : Ref)
  | addComponent (r : Ref) (t : TypeId) (v : Val)
  | removeComponent (r : Ref) (t : TypeId)
deriving DecidableEq, Repr

/-- Apply one command-buffer entry to the store. -/
def Store.applyCmd (s : Store) : Cmd → Store
  | .addEntity tm => s.spawn tm
  | .removeEntity r => s.despawn r
  | .addComponent r t v => s.applyAddComponent r t v
  | .removeComponent r t => s.applyRemoveComponent r t

/-- Modelled from the spec §4.5: the store plus its command buffer, "an
ordered log of structural mutations applied at defined synchronization
points". -/
structure World where
  store : Store
  buffer : List Cmd
deriving DecidableEq, Repr

/-- Queue a structural mutation: appends to the log, touching no storage. -/
def World.enqueue (w : World) (c : Cmd) : World :=
  { w with buffer := w.buffer ++ [c] }

/-- Flush point: drain the buffer, applying entries "strictly in
submission order", leaving the buffer empty. -/
def World.flush (w : World) : World :=
  { store := w.buffer.foldl Store.applyCmd w.store, buffer := [] }

/-! ## The storage invariant -/

/-- A well-formed column of a chunk: fixed length `cap`, occupied exactly
on the contiguous prefix `[0, count)`. -/
def ColWF {α : Type} (cap count : Nat) (col : List (Option α)) : Prop :=
  col.length = cap ∧ (∀ j, j < count → (col.getD j none).isSome = true) ∧
  (∀ j, count ≤ j → col.getD j none = none)

/-- A well-formed chunk for an archetype with `nCols` component types:
every column (the entity column included) has the chunk's capacity and is
occupied exactly on `[0, count)`. -/
def ChunkWF (cap nCols : Nat) (c : Chunk) : Prop :=
  c.cols.length = nCols ∧ c.count ≤ cap ∧ ColWF cap c.count c.entities ∧
  (∀ k, k < nCols → ColWF cap c.count (c.cols.getD k []))

/-- The archetype at index `ai` (placeholder when out of range). -/
def Store.archAt (s : Store) (ai : Nat) : Archetype :=
  s.archetypes.getD ai emptyArch

/-- The signature of the archetype at index `ai`. -/
def Store.sigAt (s : Store) (ai : Nat) : Signature :=
  (s.archAt ai).sig

/-- The chunk at index `ci` of the archetype at index `ai` (an all-free
placeholder chunk when out of range). -/
def Store.chunkAt (s : Store) (ai ci : Nat) : Chunk :=
  (s.archAt ai).chunks.getD ci (emptyChunk s.cap (s.sigAt ai).length)

/-- The entity id occupying slot `j` of chunk `(ai, ci)`, if any. -/
def Store.entityAt (s : Store) (ai ci j : Nat) : Option Nat :=
  (s.chunkAt ai ci).entities.getD j none

/-- The value in column `k`, slot `j` of chunk `(ai, ci)`, if any. -/
def Store.valueAt (s : Store) (ai ci k j : Nat) : Option Val :=
  ((s.chunkAt ai ci).cols.getD k []).getD j none

/-- The occupied-slot count of chunk `(ai, ci)`. -/
def Store.chunkCount (s : Store) (ai ci : Nat) : Nat :=
  (s.chunkAt ai ci).count

/-- The store after the destination-insert half of a migration: the
archetype list of `s1` (the lookup/creation result) with the inserted row,
the other fields still those of the original store `s`. -/
def migrateMid (s s1 : Store) (aiD : Nat) (a2 : Archetype) : Store :=
  { cap := s.cap, archetypes := s1.archetypes.set aiD a2, refs := s.refs,
    locs := s.locs, nextId := s.nextId }

/-- The store after swap-removing slot `sl` of chunk `(ai, ci)`. -/
def removeAt (s : Store) (ai ci sl : Nat) : Store :=
  let a := s.archetypes.getD ai emptyArch
  let a2 := { a with chunks := a.chunks.set ci ((s.chunkAt ai ci).swapRemove sl) }
  { s with archetypes := s.archetypes.set ai a2 }

/-- The physical half of the storage invariant: canonical distinct
signatures and well-formed chunks.  This part is meaningful even at
intermediate points of a migration, before the index bookkeeping has been
patched up. -/
structure PhysWF (s : Store) : Prop where
  capPos : 0 < s.cap
  archSorted : ∀ ai, ai < s.archetypes.length → (s.sigAt ai).Sorted (· ≤ ·)
  archNodup : ∀ ai, ai < s.archetypes.length → (s.sigAt ai).Nodup
  sigsNodup : (s.archetypes.map Archetype.sig).Nodup
  chunksWF : ∀ ai ci, ai < s.archetypes.length → ci < (s.archAt ai).chunks.length →
      ChunkWF s.cap (s.sigAt ai).length (s.chunkAt ai ci)

/-- The storage invariant: well-formed physical storage plus coherent
two-way index bookkeeping between entity ids and storage triples. -/
structure StoreWF (s : Store) : Prop where
  phys : PhysWF s
  refsLen : s.refs.length = s.nextId
  locsLen : s.locs.length = s.nextId
  refsVal : ∀ i, s.refs.getD i MIN_VALUE = MIN_VALUE ∨ s.refs.getD i MIN_VALUE = (i : Int)
  refsLoc : ∀ i, s.refs.getD i MIN_VALUE ≠ MIN_VALUE ↔ (s.locs.getD i none).isSome = true
  locSound : ∀ e loc, s.locs.getD e none = some loc →
      loc.slot < s.chunkCount loc.arch loc.chunk ∧
      s.entityAt loc.arch loc.chunk loc.slot = some e
  slotSound : ∀ ai ci j e, s.entityAt ai ci j = some e →
      s.locs.getD e none = some { arch := ai, chunk := ci, slot := j }

/-! ## Scheduler (spec §4.6; scheduler implementation absent from src/) -/

/-- Modelled from the spec: a registered system's declared ordering
constraints, as indices of other systems in registration order —
`befores` are systems this one must precede (Dependency.before),
`afters` systems it must follow (Dependency.after); both default empty
(src/unnamed/part_001 lines 253-269, part_009 ISystem.getDependencies). -/
structure SystemDecl where
  befores : List Nat
  afters : List Nat
deriving DecidableEq, Repr

/-- The dependency edges of a declaration list: `(i, j)` means system `i`
must tick before system `j`. -/
def edgesOf (ds : List SystemDecl) : List (Nat × Nat) :=
  (List.range ds.length).bind (fun i =>
    ((ds.getD i ⟨[], []⟩).befores.map (fun b => (i, b))) ++
    ((ds.getD i ⟨[], []⟩).afters.map (fun a => (a, i))))

/-- Modelled from the spec: the next system to schedule — the least
registration index among the remaining systems with no incoming edge from
a remaining system ("ties (no relative constraint) preserve registration
order").  `rem` is kept in increasing registration order. -/
def pick (es : List (Nat × Nat)) (rem : List Nat) : Option Nat :=
  rem.find? (fun j => es.all (fun e => !(decide (e.2 = j) && rem.contains e.1)))

/-- Modelled from the spec: topological order by repeated ready-pick
(Kahn's algorithm with the registration-order tie-break); `none` on a
dependency cycle. -/
def kahn (es : List (Nat × Nat)) : Nat → List Nat → Option (List Nat)
  | 0, rem => if rem.isEmpty then some [] else none
  | fuel+1, rem =>
    if rem.isEmpty then some []
    else
      match pick es rem with
      | none => none
      | some j => (kahn es fuel (rem.erase j)).map (fun l => j :: l)

/-- Modelled from the spec: the scheduler's computed tick order over the
registered systems `0..n-1`. -/
def schedule (ds : List SystemDecl) : Option (List Nat) :=
  kahn (edgesOf ds) ds.length (List.range ds.length)

/-- One declared edge step. -/
def stepB (es : List (Nat × Nat)) (i j : Nat) : Bool :=
  es.contains (i, j)

/-- A dependency path of at most `n+1` edges from `i` to `j`. -/
def hasPathN (es : List (Nat × Nat)) : Nat → Nat → Nat → Bool
  | 0, i, j => stepB es i j
  | n+1, i, j => stepB es i j ||
      es.any (fun e => decide (e.1 = i) && hasPathN es n e.2 j)

/-- A declared before/after dependency path (any length; length beyond
`es.length` edges revisits an edge and is covered by a shorter path). -/
def hasPath (es : List (Nat × Nat)) (i j : Nat) : Bool :=
  hasPathN es es.length i j

/-- The frozen claim C8 as stated: whenever the scheduler produces an
order, any two registered systems with no dependency path either way
appear in registration order. -/
def schedulerClaim : Prop :=
  ∀ (ds : List SystemDecl) (ord : List Nat), schedule ds = some ord →
    ∀ i j, i < j → j < ds.length →
      hasPath (edgesOf ds) i j = false → hasPath (edgesOf ds) j i = false →
      ord.indexOf i < ord.indexOf j

/-- A store reachable from an empty store of capacity `cap` by applying a
command sequence at flush points. -/
def Store.reach (cap : Nat) (cmds : List Cmd) : Store :=
  cmds.foldl Store.applyCmd (Store.init cap)

/-! ## Theorems -/

/-! ## List helpers used by the storage model -/

theorem getD_set_self {α : Type} (l : List α) (i : Nat) (v d : α) (h : i < l.length) :
    (l.set i v).getD i d = v := by
  induction l generalizing i with
  | nil => simp at h
  | cons x xs ih =>
    cases i with
    | zero => simp [List.set, List.getD]
    | succ n =>
      simp only [List.set, List.getD_cons_succ]
      exact ih n (by simpa using h)

theorem getD_set_ne {α : Type} (l : List α) (i j : Nat) (v d : α) (h : i ≠ j) :
    (l.set i v).getD j d = l.getD j d := by
  induction l generalizing i j with
  | nil => simp [List.set]
  | cons x xs ih =>
    cases i with
    | zero =>
      cases j with
      | zero => exact absurd rfl h
      | succ m => simp [List.set]
    | succ n =>
      cases j with
      | zero => simp [List.set]
      | succ m =>
        simp only [List.set, List.getD_cons_succ]
        exact ih n m (fun hc => h (by simp [hc]))

theorem getD_append_lt {α : Type} (l l2 : List α) (i : Nat) (d : α) (h : i < l.length) :
    (l ++ l2).getD i d = l.getD i d := by
  induction l generalizing i with
  | nil => simp at h
  | cons x xs ih =>
    cases i with
    | zero => simp [List.getD]
    | succ n =>
      simp only [List.cons_append, List.getD_cons_succ]
      exact ih n (by simpa using h)

theorem getD_append_len {α : Type} (l : List α) (x d : α) :
    (l ++ [x]).getD l.length d = x := by
  induction l with
  | nil => simp [List.getD]
  | cons y ys ih => simp [ih]

theorem getD_append_gt {α : Type} (l : List α) (x d : α) (i : Nat) (h : l.length < i) :
    (l ++ [x]).getD i d = d := by
  induction l generalizing i with
  | nil =>
    cases i with
    | zero => simp at h
    | succ n => simp [List.getD]
  | cons y ys ih =>
    cases i with
    | zero => simp at h
    | succ n =>
      simp only [List.cons_append, List.getD_cons_succ]
      exact ih n (by simpa using h)

theorem getD_oob {α : Type} (l : List α) (i : Nat) (d : α) (h : l.length ≤ i) :
    l.getD i d = d := by
  induction l generalizing i with
  | nil => simp [List.getD]
  | cons x xs ih =>
    cases i with
    | zero => simp at h
    | succ n =>
      simp only [List.getD_cons_succ]
      exact ih n (by simpa using h)

theorem getD_replicate {α : Type} (n i : Nat) (a d : α) (h : i < n) :
    (List.replicate n a).getD i d = a := by
  induction n generalizing i with
  | zero => simp at h
  | succ m ih =>
    cases i with
    | zero => simp [List.replicate, List.getD]
    | succ k =>
      simp only [List.replicate, List.getD_cons_succ]
      exact ih k (by simpa using h)

theorem getD_isSome_lt {α : Type} (l : List (Option α)) (i : Nat)
    (h : (l.getD i none).isSome = true) : i < l.length := by
  by_contra hc
  rw [getD_oob l i none (Nat.le_of_not_lt hc)] at h
  simp at h

theorem findIdxP_none {α : Type} (p : α → Bool) (l : List α)
    (h : findIdxP p l = none) : ∀ x ∈ l, p x = false := by
  induction l with
  | nil => intro x hx; simp at hx
  | cons y ys ih =>
    intro x hx
    by_cases hp : p y
    · simp [findIdxP, hp] at h
    · rcases List.mem_cons.mp hx with rfl | hmem
      · exact Bool.eq_false_iff.mpr hp
      · simp [findIdxP, hp] at h
        exact ih h x hmem

theorem findIdxP_some {α : Type} (p : α → Bool) (l : List α) (i : Nat) (d : α)
    (h : findIdxP p l = some i) :
    i < l.length ∧ p (l.getD i d) = true ∧ ∀ j, j < i → p (l.getD j d) = false := by
  induction l generalizing i with
  | nil => simp [findIdxP] at h
  | cons y ys ih =>
    by_cases hp : p y
    · simp [findIdxP, hp] at h
      subst h
      exact ⟨Nat.succ_pos _, by simpa [List.getD] using hp, fun j hj => by omega⟩
    · simp [findIdxP, hp] at h
      rcases h with ⟨k, hk, rfl⟩
      rcases ih k hk with ⟨h1, h2, h3⟩
      refine ⟨by simpa using Nat.succ_lt_succ h1, by simpa using h2, ?_⟩
      intro j hj
      cases j with
      | zero => simpa [List.getD] using Bool.eq_false_iff.mpr hp
      | succ m => simpa using h3 m (by omega)

theorem findIdxP_mem_some {α : Type} (p : α → Bool) (l : List α) (x : α)
    (hx : x ∈ l) (hp : p x = true) : ∃ i, findIdxP p l = some i := by
  induction l with
  | nil => simp at hx
  | cons y ys ih =>
    by_cases hy : p y
    · exact ⟨0, by simp [findIdxP, hy]⟩
    · rcases List.mem_cons.mp hx with rfl | hmem
      · exact absurd hp (by simp [hy])
      · rcases ih hmem with ⟨i, hi⟩
        exact ⟨i + 1, by simp [findIdxP, hy, hi]⟩

theorem canon_perm (l : List TypeId) : (canon l).Perm l.dedup :=
  List.perm_insertionSort _ _

theorem canon_sorted (l : List TypeId) : (canon l).Sorted (· ≤ ·) :=
  List.sorted_insertionSort _ _

theorem canon_nodup (l : List TypeId) : (canon l).Nodup :=
  ((canon_perm l).nodup_iff).mpr (List.nodup_dedup l)

theorem mem_canon (t : TypeId) (l : List TypeId) : t ∈ canon l ↔ t ∈ l := by
  rw [(canon_perm l).mem_iff, List.mem_dedup]

theorem canon_eq_of_perm (l1 l2 : List TypeId) (h : l1.Perm l2) :
    canon l1 = canon l2 :=
  List.eq_of_perm_of_sorted
    (((canon_perm l1).trans h.dedup).trans (canon_perm l2).symm)
    (canon_sorted l1) (canon_sorted l2)

theorem canon_eq_self (l : List TypeId) (hs : l.Sorted (· ≤ ·)) (hn : l.Nodup) :
    canon l = l :=
  List.eq_of_perm_of_sorted ((canon_perm l).trans (by rw [List.dedup_eq_self.mpr hn]))
    (canon_sorted l) hs

theorem getD_map {α β : Type} (f : α → β) (l : List α) (k : Nat) (d : α) (d2 : β)
    (h : k < l.length) : (l.map f).getD k d2 = f (l.getD k d) := by
  induction l generalizing k with
  | nil => simp at h
  | cons x xs ih =>
    cases k with
    | zero => simp [List.getD]
    | succ n =>
      simp only [List.map, List.getD_cons_succ]
      exact ih n (by simpa using h)

theorem ColWF_replicate {α : Type} (cap : Nat) :
    ColWF cap 0 (List.replicate cap (none : Option α)) := by
  refine ⟨List.length_replicate _ _, fun j hj => by omega, fun j _ => ?_⟩
  by_cases hj : j < cap
  · rw [getD_replicate _ _ _ _ hj]
  · exact getD_oob _ _ _ (by simpa using Nat.le_of_not_lt hj)

theorem ColWF.push {α : Type} {cap count : Nat} {col : List (Option α)}
    (h : ColWF cap count col) (hc : count < cap) (v : α) :
    ColWF cap (count + 1) (col.set count (some v)) := by
  obtain ⟨hlen, hlo, hhi⟩ := h
  refine ⟨by simpa using hlen, ?_, ?_⟩
  · intro j hj
    by_cases hje : j = count
    · subst hje; rw [getD_set_self _ _ _ _ (by omega)]; rfl
    · rw [getD_set_ne _ _ _ _ _ (fun hcj => hje hcj.symm)]
      exact hlo j (by omega)
  · intro j hj
    rw [getD_set_ne _ _ _ _ _ (by omega)]
    exact hhi j (by omega)

theorem ColWF.swapRemoveWF {α : Type} {cap count : Nat} {col : List (Option α)}
    (h : ColWF cap count col) (hcap : count ≤ cap) (i : Nat) (hi : i < count) :
    ColWF cap (count - 1) ((col.set i (col.getD (count - 1) none)).set (count - 1) none) := by
  obtain ⟨hlen, hlo, hhi⟩ := h
  refine ⟨by simpa using hlen, ?_, ?_⟩
  · intro j hj
    rw [getD_set_ne _ (count - 1) j _ _ (by omega)]
    by_cases hji : j = i
    · subst hji
      rw [getD_set_self _ _ _ _ (by omega)]
      exact hlo _ (by omega)
    · rw [getD_set_ne _ i j _ _ (fun hc => hji hc.symm)]
      exact hlo j (by omega)
  · intro j hj
    by_cases hje : j = count - 1
    · subst hje
      rw [getD_set_self _ _ _ _ (by simp only [List.length_set, hlen]; omega)]
    · rw [getD_set_ne _ (count - 1) j _ _ (fun hc => hje hc.symm),
        getD_set_ne _ i j _ _ (by omega)]
      exact hhi j (by omega)

theorem setSlotAll_length (cols : List (List (Option Val))) (j : Nat) (vals : List Val) :
    (setSlotAll cols j vals).length = cols.length := by
  induction vals generalizing cols with
  | nil => simp [setSlotAll]
  | cons v vs ih =>
    cases cols with
    | nil => rfl
    | cons c cs => simp [setSlotAll, ih]

theorem setSlotAll_getD_lt (cols : List (List (Option Val))) (j : Nat) (vals : List Val)
    (k : Nat) (hk : k < cols.length) (hk2 : k < vals.length) :
    (setSlotAll cols j vals).getD k [] = (cols.getD k []).set j (some (vals.getD k 0)) := by
  induction vals generalizing cols k with
  | nil => simp at hk2
  | cons v vs ih =>
    cases cols with
    | nil => simp at hk
    | cons c cs =>
      cases k with
      | zero => simp [setSlotAll, List.getD]
      | succ n =>
        simp only [setSlotAll, List.getD_cons_succ]
        exact ih cs n (by simpa using hk) (by simpa using hk2)

theorem setSlotAll_getD_ge (cols : List (List (Option Val))) (j : Nat) (vals : List Val)
    (k : Nat) (hk2 : vals.length ≤ k) :
    (setSlotAll cols j vals).getD k [] = cols.getD k [] := by
  induction vals generalizing cols k with
  | nil => simp [setSlotAll]
  | cons v vs ih =>
    cases cols with
    | nil => simp [setSlotAll]
    | cons c cs =>
      cases k with
      | zero => simp at hk2
      | succ n =>
        simp only [setSlotAll, List.getD_cons_succ]
        exact ih cs n (by simpa using hk2)

theorem ChunkWF_emptyChunk (cap nCols : Nat) : ChunkWF cap nCols (emptyChunk cap nCols) := by
  refine ⟨List.length_replicate _ _, Nat.zero_le _, ColWF_replicate cap, ?_⟩
  intro k hk
  rw [show (emptyChunk cap nCols).cols = List.replicate nCols (List.replicate cap none) from rfl,
    getD_replicate _ _ _ _ (by simpa using hk)]
  exact ColWF_replicate cap

theorem ChunkWF.pushRow {cap nCols : Nat} {c : Chunk} (h : ChunkWF cap nCols c)
    (hcnt : c.count < cap) (e : Nat) (vals : List Val) (hv : vals.length = nCols) :
    ChunkWF cap nCols (c.pushRow e vals) := by
  obtain ⟨hcols, hcap, hent, hcol⟩ := h
  refine ⟨by simpa [Chunk.pushRow, setSlotAll_length] using hcols, by simpa using hcnt,
    hent.push hcnt e, ?_⟩
  intro k hk
  rw [show (c.pushRow e vals).cols = setSlotAll c.cols c.count vals from rfl,
    setSlotAll_getD_lt _ _ _ _ (by omega) (by omega)]
  exact (hcol k hk).push hcnt _

theorem ChunkWF.swapRemove {cap nCols : Nat} {c : Chunk} (h : ChunkWF cap nCols c)
    (i : Nat) (hi : i < c.count) : ChunkWF cap nCols (c.swapRemove i) := by
  obtain ⟨hcols, hcap, hent, hcol⟩ := h
  refine ⟨by simpa [Chunk.swapRemove] using hcols, ?_, hent.swapRemoveWF hcap i hi, ?_⟩
  · show c.count - 1 ≤ cap
    omega
  · intro k hk
    rw [show (c.swapRemove i).cols =
        c.cols.map (fun col => (col.set i (col.getD (c.count - 1) none)).set (c.count - 1) none)
        from rfl, getD_map _ _ _ [] _ (by omega)]
    exact (hcol k hk).swapRemoveWF hcap i hi

theorem wf_init (cap : Nat) (h : 0 < cap) : StoreWF (Store.init cap) := by
  have hempty : ∀ ai ci j, (Store.init cap).entityAt ai ci j = none := by
    intro ai ci j
    show ((((Store.init cap).archetypes.getD ai emptyArch).chunks.getD ci _).entities.getD
      j none) = none
    have h1 : (Store.init cap).archetypes.getD ai emptyArch = emptyArch := by
      cases ai <;> rfl
    rw [h1]
    have h2 : (emptyArch.chunks.getD ci (emptyChunk (Store.init cap).cap
        ((Store.init cap).sigAt ai).length)) = emptyChunk (Store.init cap).cap
        ((Store.init cap).sigAt ai).length := by
      cases ci <;> rfl
    show ((emptyArch.chunks.getD ci _).entities.getD j none) = none
    rw [h2]
    by_cases hj : j < cap
    · exact getD_replicate _ _ _ _ hj
    · exact getD_oob _ _ _
        (by simpa [emptyChunk, Store.init] using Nat.le_of_not_lt hj)
  refine ⟨⟨h, ?_, ?_, ?_, ?_⟩, rfl, rfl, ?_, ?_, ?_, ?_⟩
  · intro ai hai; simp [Store.init] at hai
  · intro ai hai; simp [Store.init] at hai
  · simp [Store.init]
  · intro ai ci hai; simp [Store.init] at hai
  · intro i; left; rfl
  · intro i; simp [Store.init, List.getD]
  · intro e loc hl; simp [Store.init, List.getD] at hl
  · intro ai ci j e he; rw [hempty] at he; exact absurd he (by simp)

/-! ## Effect lemmas for the primitive operations -/

theorem getD_default_irrel {α : Type} (l : List α) (i : Nat) (d1 d2 : α)
    (h : i < l.length) : l.getD i d1 = l.getD i d2 := by
  induction l generalizing i with
  | nil => simp at h
  | cons x xs ih =>
    cases i with
    | zero => rfl
    | succ n =>
      simp only [List.getD_cons_succ]
      exact ih n (by simpa using h)

theorem set_getD_self {α : Type} (l : List α) (i : Nat) (d : α) :
    l.set i (l.getD i d) = l := by
  induction l generalizing i with
  | nil => rfl
  | cons x xs ih =>
    cases i with
    | zero => rfl
    | succ n => simp only [List.set, List.getD_cons_succ]; rw [ih]

theorem map_set_comm {α β : Type} (f : α → β) (l : List α) (i : Nat) (x : α) :
    (l.set i x).map f = (l.map f).set i (f x) := by
  induction l generalizing i with
  | nil => rfl
  | cons y ys ih =>
    cases i with
    | zero => rfl
    | succ n => simp only [List.set, List.map]; rw [ih]

theorem getD_mem_of_lt {α : Type} (l : List α) (i : Nat) (d : α) (h : i < l.length) :
    l.getD i d ∈ l := by
  induction l generalizing i with
  | nil => simp at h
  | cons x xs ih =>
    cases i with
    | zero => exact List.mem_cons_self _ _
    | succ n =>
      simp only [List.getD_cons_succ]
      exact List.mem_cons_of_mem _ (ih n (by simpa using h))

theorem getD_nodup_inj {α : Type} {l : List α} (hn : l.Nodup) (i j : Nat) (d : α)
    (hi : i < l.length) (hj : j < l.length) (h : l.getD i d = l.getD j d) : i = j := by
  induction l generalizing i j with
  | nil => simp at hi
  | cons x xs ih =>
    rcases List.nodup_cons.mp hn with ⟨hx, hxs⟩
    cases i with
    | zero =>
      cases j with
      | zero => rfl
      | succ m =>
        exfalso
        apply hx
        rw [show (x :: xs).getD 0 d = x from rfl, List.getD_cons_succ] at h
        rw [h]
        exact getD_mem_of_lt _ _ _ (by simpa using hj)
    | succ n =>
      cases j with
      | zero =>
        exfalso
        apply hx
        rw [show (x :: xs).getD 0 d = x from rfl, List.getD_cons_succ] at h
        rw [← h]
        exact getD_mem_of_lt _ _ _ (by simpa using hi)
      | succ m =>
        simp only [List.getD_cons_succ] at h
        exact congrArg Nat.succ (ih hxs n m (by simpa using hi) (by simpa using hj) h)

theorem archetypeFor_fields {s : Store} {sig : Signature} {ai : Nat} {s1 : Store}
    (h : s.archetypeFor sig = (ai, s1)) :
    s1.cap = s.cap ∧ s1.refs = s.refs ∧ s1.locs = s.locs ∧ s1.nextId = s.nextId := by
  unfold Store.archetypeFor at h
  cases hf : findIdxP (fun a => decide (a.sig = sig)) s.archetypes with
  | none => rw [hf] at h; cases h; exact ⟨rfl, rfl, rfl, rfl⟩
  | some i => rw [hf] at h; cases h; exact ⟨rfl, rfl, rfl, rfl⟩

theorem archetypeFor_spec {s : Store} {sig : Signature} {ai : Nat} {s1 : Store}
    (h : s.archetypeFor sig = (ai, s1)) :
    ai < s1.archetypes.length ∧
    (s1.archetypes.getD ai emptyArch).sig = sig ∧
    s.archetypes.length ≤ s1.archetypes.length ∧
    (∀ j, j ≠ ai → s1.archetypes.getD j emptyArch = s.archetypes.getD j emptyArch) ∧
    (s1 = s ∨
      (s1.archetypes = s.archetypes ++ [{ sig := sig, chunks := [] }] ∧
       ai = s.archetypes.length ∧ sig ∉ s.archetypes.map Archetype.sig ∧
       s1.archetypes.getD ai emptyArch = { sig := sig, chunks := [] })) := by
  unfold Store.archetypeFor at h
  cases hf : findIdxP (fun a => decide (a.sig = sig)) s.archetypes with
  | some i =>
    rw [hf] at h
    cases h
    rcases findIdxP_some _ _ _ emptyArch hf with ⟨hlt, hp, _⟩
    exact ⟨hlt, of_decide_eq_true hp, Nat.le_refl _, fun j _ => rfl, Or.inl rfl⟩
  | none =>
    rw [hf] at h
    cases h
    have hnotmem : sig ∉ s.archetypes.map Archetype.sig := by
      intro hmem
      rcases List.mem_map.mp hmem with ⟨a, ha, hsig⟩
      have := findIdxP_none _ _ hf a ha
      rw [hsig] at this
      simp at this
    refine ⟨?_, ?_, ?_, ?_, Or.inr ⟨rfl, rfl, hnotmem, ?_⟩⟩
    · simp
    · rw [show ({ s with archetypes := s.archetypes ++ [{ sig := sig, chunks := [] }] } :
          Store).archetypes = s.archetypes ++ [{ sig := sig, chunks := [] }] from rfl,
        getD_append_len]
    · simp
    · intro j hj
      rw [show ({ s with archetypes := s.archetypes ++ [{ sig := sig, chunks := [] }] } :
          Store).archetypes = s.archetypes ++ [{ sig := sig, chunks := [] }] from rfl]
      rcases Nat.lt_trichotomy j s.archetypes.length with hlt | heq | hgt
      · exact getD_append_lt _ _ _ _ hlt
      · exact absurd heq hj
      · rw [getD_append_gt _ _ _ _ hgt, getD_oob _ _ _ (Nat.le_of_lt hgt)]
    · rw [show ({ s with archetypes := s.archetypes ++ [{ sig := sig, chunks := [] }] } :
          Store).archetypes = s.archetypes ++ [{ sig := sig, chunks := [] }] from rfl,
        getD_append_len]

theorem insertRow_spec {a : Archetype} {cap e : Nat} {vals : List Val}
    {a2 : Archetype} {ci sl : Nat} (hcap : 0 < cap)
    (h : a.insertRow cap e vals = (a2, ci, sl)) :
    a2.sig = a.sig ∧
    ci < a2.chunks.length ∧
    a.chunks.length ≤ a2.chunks.length ∧
    a2.chunks.length ≤ a.chunks.length + 1 ∧
    sl = (a.chunks.getD ci (emptyChunk cap a.sig.length)).count ∧
    (a.chunks.getD ci (emptyChunk cap a.sig.length)).count < cap ∧
    a2.chunks.getD ci (emptyChunk cap a.sig.length) =
      (a.chunks.getD ci (emptyChunk cap a.sig.length)).pushRow e vals ∧
    (∀ ci2, ci2 ≠ ci →
      a2.chunks.getD ci2 (emptyChunk cap a.sig.length) =
        a.chunks.getD ci2 (emptyChunk cap a.sig.length)) := by
  unfold Archetype.insertRow at h
  cases hf : findIdxP (fun c => decide (c.count < cap)) a.chunks with
  | some i =>
    rw [hf] at h
    cases h
    rcases findIdxP_some _ _ _ (emptyChunk cap a.sig.length) hf with ⟨hlt, hp, _⟩
    refine ⟨rfl, by simpa using hlt, by simp, by simp, rfl, of_decide_eq_true hp,
      getD_set_self _ _ _ _ (by simpa using hlt), fun ci2 hci2 =>
      getD_set_ne _ _ _ _ _ (fun hc => hci2 hc.symm)⟩
  | none =>
    rw [hf] at h
    cases h
    have hoob : a.chunks.getD a.chunks.length (emptyChunk cap a.sig.length) =
        emptyChunk cap a.sig.length := getD_oob _ _ _ (Nat.le_refl _)
    refine ⟨rfl, by simp, by simp, by simp, ?_, ?_, ?_, ?_⟩
    · rw [hoob]; rfl
    · rw [hoob]; exact hcap
    · rw [hoob, getD_append_len]
    · intro ci2 hci2
      rcases Nat.lt_trichotomy ci2 a.chunks.length with hlt | heq | hgt
      · exact getD_append_lt _ _ _ _ hlt
      · exact absurd heq hci2
      · rw [getD_append_gt _ _ _ _ hgt, getD_oob _ _ _ (Nat.le_of_lt hgt)]

theorem pushRow_count (c : Chunk) (e : Nat) (vals : List Val) :
    (c.pushRow e vals).count = c.count + 1 := rfl

theorem pushRow_entities_self (c : Chunk) (e : Nat) (vals : List Val)
    (h : c.count < c.entities.length) :
    (c.pushRow e vals).entities.getD c.count none = some e :=
  getD_set_self _ _ _ _ h

theorem pushRow_entities_ne (c : Chunk) (e : Nat) (vals : List Val) (j : Nat)
    (h : j ≠ c.count) :
    (c.pushRow e vals).entities.getD j none = c.entities.getD j none :=
  getD_set_ne _ _ _ _ _ (fun hc => h hc.symm)

theorem pushRow_col_self (c : Chunk) (e : Nat) (vals : List Val) (k : Nat)
    (hk : k < c.cols.length) (hk2 : k < vals.length)
    (hlen : c.count < (c.cols.getD k []).length) :
    ((c.pushRow e vals).cols.getD k []).getD c.count none = some (vals.getD k 0) := by
  rw [show (c.pushRow e vals).cols = setSlotAll c.cols c.count vals from rfl,
    setSlotAll_getD_lt _ _ _ _ hk hk2, getD_set_self _ _ _ _ hlen]

theorem pushRow_col_ne (c : Chunk) (e : Nat) (vals : List Val) (k j : Nat)
    (h : j ≠ c.count) :
    ((c.pushRow e vals).cols.getD k []).getD j none = (c.cols.getD k []).getD j none := by
  rw [show (c.pushRow e vals).cols = setSlotAll c.cols c.count vals from rfl]
  by_cases hk : k < c.cols.length
  · by_cases hk2 : k < vals.length
    · rw [setSlotAll_getD_lt _ _ _ _ hk hk2, getD_set_ne _ _ _ _ _ (fun hc => h hc.symm)]
    · rw [setSlotAll_getD_ge _ _ _ _ (Nat.le_of_not_lt hk2)]
  · have h1 : (setSlotAll c.cols c.count vals).getD k [] = [] :=
      getD_oob _ _ _ (by rw [setSlotAll_length]; exact Nat.le_of_not_lt hk)
    have h2 : c.cols.getD k [] = [] := getD_oob _ _ _ (Nat.le_of_not_lt hk)
    rw [h1, h2]

theorem swapRemove_count (c : Chunk) (i : Nat) : (c.swapRemove i).count = c.count - 1 := rfl

theorem swapRemove_entities_last (c : Chunk) (i : Nat) :
    (c.swapRemove i).entities.getD (c.count - 1) none = none := by
  show ((c.entities.set i (c.entities.getD (c.count - 1) none)).set (c.count - 1)
    none).getD (c.count - 1) none = none
  by_cases h : c.count - 1 < c.entities.length
  · exact getD_set_self _ _ _ _ (by simpa using h)
  · exact getD_oob _ _ _ (by simpa using Nat.le_of_not_lt h)

theorem swapRemove_entities_at (c : Chunk) (i : Nat) (h : i ≠ c.count - 1)
    (hi : i < c.entities.length) :
    (c.swapRemove i).entities.getD i none = c.entities.getD (c.count - 1) none := by
  show ((c.entities.set i (c.entities.getD (c.count - 1) none)).set (c.count - 1)
    none).getD i none = _
  rw [getD_set_ne _ _ _ _ _ (fun hc => h hc.symm), getD_set_self _ _ _ _ hi]

theorem swapRemove_entities_other (c : Chunk) (i j : Nat) (h1 : j ≠ i)
    (h2 : j ≠ c.count - 1) :
    (c.swapRemove i).entities.getD j none = c.entities.getD j none := by
  show ((c.entities.set i (c.entities.getD (c.count - 1) none)).set (c.count - 1)
    none).getD j none = _
  rw [getD_set_ne _ _ _ _ _ (fun hc => h2 hc.symm),
    getD_set_ne _ _ _ _ _ (fun hc => h1 hc.symm)]

theorem swapRemove_cols_getD (c : Chunk) (i k : Nat) (hk : k < c.cols.length) :
    (c.swapRemove i).cols.getD k [] =
      ((c.cols.getD k []).set i ((c.cols.getD k []).getD (c.count - 1) none)).set
        (c.count - 1) none := by
  show (c.cols.map _).getD k [] = _
  rw [getD_map _ _ _ [] _ hk]

theorem swapRemove_cols_oob (c : Chunk) (i k : Nat) (hk : c.cols.length ≤ k) :
    (c.swapRemove i).cols.getD k [] = [] := by
  show (c.cols.map _).getD k [] = _
  exact getD_oob _ _ _ (by simpa using hk)

theorem emptyChunk_entities_getD (cap n j : Nat) :
    (emptyChunk cap n).entities.getD j none = none := by
  by_cases hj : j < cap
  · exact getD_replicate _ _ _ _ hj
  · exact getD_oob _ _ _ (by simpa [emptyChunk] using Nat.le_of_not_lt hj)

theorem emptyChunk_cols_getD (cap n k j : Nat) :
    ((emptyChunk cap n).cols.getD k []).getD j none = none := by
  have hcols : (emptyChunk cap n).cols = List.replicate n (List.replicate cap none) := rfl
  by_cases hk : k < n
  · have h1 : (emptyChunk cap n).cols.getD k [] = List.replicate cap none := by
      rw [hcols]; exact getD_replicate _ _ _ _ hk
    rw [h1]
    by_cases hj : j < cap
    · exact getD_replicate _ _ _ _ hj
    · exact getD_oob _ _ _ (by simpa using Nat.le_of_not_lt hj)
  · have h1 : (emptyChunk cap n).cols.getD k [] = [] := by
      rw [hcols]; exact getD_oob _ _ _ (by simpa using Nat.le_of_not_lt hk)
    rw [h1]
    rfl

theorem accessors_eq_of_archAt {s T : Store} (hc : T.cap = s.cap) {ai : Nat}
    (h : T.archAt ai = s.archAt ai) :
    T.sigAt ai = s.sigAt ai ∧ (∀ ci, T.chunkAt ai ci = s.chunkAt ai ci) ∧
    (∀ ci j, T.entityAt ai ci j = s.entityAt ai ci j) ∧
    (∀ ci k j, T.valueAt ai ci k j = s.valueAt ai ci k j) ∧
    (∀ ci, T.chunkCount ai ci = s.chunkCount ai ci) := by
  have hsig : T.sigAt ai = s.sigAt ai := by unfold Store.sigAt; rw [h]
  have hchunk : ∀ ci, T.chunkAt ai ci = s.chunkAt ai ci := by
    intro ci
    unfold Store.chunkAt
    rw [h, hc, hsig]
  refine ⟨hsig, hchunk, ?_, ?_, ?_⟩
  · intro ci j; unfold Store.entityAt; rw [hchunk]
  · intro ci k j; unfold Store.valueAt; rw [hchunk]
  · intro ci; unfold Store.chunkCount; rw [hchunk]

theorem insert_phys {s T : Store} {sig : Signature} {e : Nat} {vals : List Val}
    {ai : Nat} {s1 : Store} {a2 : Archetype} {ci sl : Nat}
    (hphys : PhysWF s)
    (hsortedS : sig.Sorted (· ≤ ·)) (hnodupS : sig.Nodup)
    (hvlen : vals.length = sig.length)
    (hA : s.archetypeFor sig = (ai, s1))
    (hB : (s1.archetypes.getD ai emptyArch).insertRow s.cap e vals = (a2, ci, sl))
    (hTcap : T.cap = s.cap) (hTarch : T.archetypes = s1.archetypes.set ai a2) :
    PhysWF T ∧
    ai < T.archetypes.length ∧
    s.archetypes.length ≤ T.archetypes.length ∧
    T.sigAt ai = sig ∧
    (∀ j, j ≠ ai → T.archAt j = s.archAt j) ∧
    sl = s.chunkCount ai ci ∧
    s.chunkCount ai ci < s.cap ∧
    T.chunkCount ai ci = sl + 1 ∧
    T.entityAt ai ci sl = some e ∧
    (∀ k, k < sig.length → T.valueAt ai ci k sl = some (vals.getD k 0)) ∧
    (∀ ai2 ci2 j, ¬(ai2 = ai ∧ ci2 = ci ∧ j = sl) →
        T.entityAt ai2 ci2 j = s.entityAt ai2 ci2 j) ∧
    (∀ ai2 ci2, ¬(ai2 = ai ∧ ci2 = ci) → T.chunkCount ai2 ci2 = s.chunkCount ai2 ci2) := by
  obtain ⟨hcapP, hsorted, hnodup, hsigs, hchunks⟩ := hphys
  obtain ⟨hA1, hA2, hA3, hA4, hA5⟩ := archetypeFor_spec hA
  obtain ⟨hB1, hB2, hB3, hB4, hB5, hB6, hB7, hB8⟩ := insertRow_spec hcapP hB
  rw [hA2] at hB5 hB6 hB7 hB8
  have hTlen : T.archetypes.length = s1.archetypes.length := by
    rw [hTarch]; exact List.length_set _ _ _
  have hTai : T.archetypes.getD ai emptyArch = a2 := by
    rw [hTarch]; exact getD_set_self _ _ _ _ (by omega)
  have hTother : ∀ j, j ≠ ai → T.archetypes.getD j emptyArch = s.archetypes.getD j emptyArch := by
    intro j hj
    rw [hTarch, getD_set_ne _ _ _ _ _ (fun hc => hj hc.symm)]
    exact hA4 j hj
  have hs1len : s1.archetypes.length ≤ s.archetypes.length + 1 := by
    rcases hA5 with rfl | ⟨harch, _, _, _⟩
    · omega
    · rw [harch]; simp
  have hnewai : s.archetypes.length < s1.archetypes.length → ai = s.archetypes.length := by
    intro hlt
    rcases hA5 with rfl | ⟨_, hai, _, _⟩
    · omega
    · exact hai
  have hsigTai : T.sigAt ai = sig := by
    show (T.archetypes.getD ai emptyArch).sig = sig
    rw [hTai, hB1, hA2]
  have hjlt : ∀ j, j < T.archetypes.length → j ≠ ai → j < s.archetypes.length := by
    intro j hjT hjai
    by_contra hge
    have h1 : s.archetypes.length ≤ j := Nat.le_of_not_lt hge
    have h2 : s.archetypes.length < s1.archetypes.length := by omega
    have h3 := hnewai h2
    omega
  have holdChunk : ∀ ci2,
      s.chunkCount ai ci2 =
        ((s1.archetypes.getD ai emptyArch).chunks.getD ci2 (emptyChunk s.cap sig.length)).count ∧
      (∀ j, s.entityAt ai ci2 j =
        ((s1.archetypes.getD ai emptyArch).chunks.getD ci2
          (emptyChunk s.cap sig.length)).entities.getD j none) := by
    intro ci2
    rcases hA5 with heq | ⟨harch, hai, hmem, haiEq⟩
    · rw [heq]
      have hch : s.chunkAt ai ci2 =
          (s.archetypes.getD ai emptyArch).chunks.getD ci2 (emptyChunk s.cap sig.length) := by
        unfold Store.chunkAt Store.sigAt Store.archAt
        rw [show (s.archetypes.getD ai emptyArch).sig = sig from heq ▸ hA2]
      constructor
      · show (s.chunkAt ai ci2).count = _
        rw [hch]
      · intro j
        show (s.chunkAt ai ci2).entities.getD j none = _
        rw [hch]
    · have hOOB : s.archetypes.getD ai emptyArch = emptyArch := getD_oob _ _ _ (by omega)
      have hch : s.chunkAt ai ci2 = emptyChunk s.cap (s.sigAt ai).length := by
        unfold Store.chunkAt Store.archAt
        rw [hOOB]
        exact getD_oob _ _ _ (by simp [emptyArch])
      have hrhs : (s1.archetypes.getD ai emptyArch).chunks.getD ci2
          (emptyChunk s.cap sig.length) = emptyChunk s.cap sig.length := by
        rw [haiEq]
        exact getD_oob _ _ _ (by simp)
      constructor
      · show (s.chunkAt ai ci2).count = _
        rw [hch, hrhs]
        rfl
      · intro j
        show (s.chunkAt ai ci2).entities.getD j none = _
        rw [hch, hrhs, emptyChunk_entities_getD, emptyChunk_entities_getD]
  have hcAllWF : ∀ ci0, ChunkWF s.cap sig.length
      ((s1.archetypes.getD ai emptyArch).chunks.getD ci0 (emptyChunk s.cap sig.length)) := by
    intro ci0
    by_cases hci : ci0 < (s1.archetypes.getD ai emptyArch).chunks.length
    · rcases hA5 with heq | ⟨harch, hai, hmem, haiEq⟩
      · rw [heq]
        rw [heq] at hci hA1
        have h1 := hchunks ai ci0 hA1 hci
        unfold Store.chunkAt Store.sigAt Store.archAt at h1
        rw [show (s.archetypes.getD ai emptyArch).sig = sig from heq ▸ hA2] at h1
        exact h1
      · rw [haiEq] at hci
        simp at hci
    · rw [getD_oob _ _ _ (Nat.le_of_not_lt hci)]
      exact ChunkWF_emptyChunk _ _
  have hTchunk_ci : T.chunkAt ai ci =
      ((s1.archetypes.getD ai emptyArch).chunks.getD ci
        (emptyChunk s.cap sig.length)).pushRow e vals := by
    show (T.archAt ai).chunks.getD ci (emptyChunk T.cap (T.sigAt ai).length) = _
    rw [show T.archAt ai = a2 from hTai, hTcap, hsigTai]
    exact hB7
  have hTchunk_ne : ∀ ci2, ci2 ≠ ci → T.chunkAt ai ci2 =
      (s1.archetypes.getD ai emptyArch).chunks.getD ci2 (emptyChunk s.cap sig.length) := by
    intro ci2 hci2
    show (T.archAt ai).chunks.getD ci2 (emptyChunk T.cap (T.sigAt ai).length) = _
    rw [show T.archAt ai = a2 from hTai, hTcap, hsigTai]
    exact hB8 ci2 hci2
  obtain ⟨hcOld1, hcOld2, hcOld3, hcOld4⟩ := hcAllWF ci
  refine ⟨?_, by omega, by omega, hsigTai, ?_, ?_, ?_, ?_, ?_, ?_, ?_, ?_⟩
  · -- PhysWF T
    refine ⟨by rw [hTcap]; exact hcapP, ?_, ?_, ?_, ?_⟩
    · intro j hj
      by_cases hjai : j = ai
      · subst hjai
        rw [hsigTai]
        exact hsortedS
      · have h1 : T.sigAt j = s.sigAt j := by
          show (T.archetypes.getD j emptyArch).sig = _
          rw [hTother j hjai]
          rfl
        rw [h1]
        exact hsorted j (hjlt j hj hjai)
    · intro j hj
      by_cases hjai : j = ai
      · subst hjai
        rw [hsigTai]
        exact hnodupS
      · have h1 : T.sigAt j = s.sigAt j := by
          show (T.archetypes.getD j emptyArch).sig = _
          rw [hTother j hjai]
          rfl
        rw [h1]
        exact hnodup j (hjlt j hj hjai)
    · have h1 : a2.sig = (s1.archetypes.map Archetype.sig).getD ai [] := by
        rw [getD_map Archetype.sig _ _ emptyArch _ (by omega)]
        exact hB1
      have hmapT : T.archetypes.map Archetype.sig = s1.archetypes.map Archetype.sig := by
        rw [hTarch, map_set_comm, h1, set_getD_self]
      rw [hmapT]
      rcases hA5 with rfl | ⟨harch, hai, hmem, _⟩
      · exact hsigs
      · rw [harch, List.map_append, List.nodup_append]
        refine ⟨hsigs, by simp, ?_⟩
        intro x hx hmem2
        simp at hmem2
        subst hmem2
        exact hmem hx
    · intro j ci2 hj hci2
      by_cases hjai : j = ai
      · rw [hjai, hTcap, hsigTai]
        by_cases hc : ci2 = ci
        · rw [hc, hTchunk_ci]
          exact ChunkWF.pushRow ⟨hcOld1, hcOld2, hcOld3, hcOld4⟩ hB6 e vals hvlen
        · rw [hTchunk_ne ci2 hc]
          exact hcAllWF ci2
      · have harchj : T.archAt j = s.archAt j := hTother j hjai
        have hacc := accessors_eq_of_archAt hTcap harchj
        rw [hTcap, hacc.1, hacc.2.1 ci2]
        rw [show T.archAt j = s.archAt j from harchj] at hci2
        exact hchunks j ci2 (hjlt j hj hjai) hci2
  · intro j hj
    exact hTother j hj
  · rw [(holdChunk ci).1]
    exact hB5
  · rw [(holdChunk ci).1]
    exact hB6
  · show (T.chunkAt ai ci).count = sl + 1
    rw [hTchunk_ci, pushRow_count, hB5]
  · show (T.chunkAt ai ci).entities.getD sl none = some e
    rw [hTchunk_ci, hB5]
    refine pushRow_entities_self _ _ _ ?_
    rw [hcOld3.1]
    exact hB6
  · intro k hk
    show ((T.chunkAt ai ci).cols.getD k []).getD sl none = some (vals.getD k 0)
    rw [hTchunk_ci, hB5]
    refine pushRow_col_self _ _ _ _ (by omega) (by omega) ?_
    rw [(hcOld4 k (by omega)).1]
    exact hB6
  · intro ai2 ci2 j hne
    by_cases hai2 : ai2 = ai
    · rw [hai2]
      by_cases hci2 : ci2 = ci
      · rw [hci2]
        have hj : j ≠ sl := fun h => hne ⟨hai2, hci2, h⟩
        show (T.chunkAt ai ci).entities.getD j none = s.entityAt ai ci j
        rw [hTchunk_ci, pushRow_entities_ne _ _ _ _ (by omega)]
        exact ((holdChunk ci).2 j).symm
      · show (T.chunkAt ai ci2).entities.getD j none = s.entityAt ai ci2 j
        rw [hTchunk_ne ci2 hci2]
        exact ((holdChunk ci2).2 j).symm
    · have hacc := accessors_eq_of_archAt hTcap (hTother ai2 hai2)
      exact hacc.2.2.1 ci2 j
  · intro ai2 ci2 hne
    by_cases hai2 : ai2 = ai
    · rw [hai2]
      have hci2 : ci2 ≠ ci := fun h => hne ⟨hai2, h⟩
      show (T.chunkAt ai ci2).count = s.chunkCount ai ci2
      rw [hTchunk_ne ci2 hci2]
      exact ((holdChunk ci2).1).symm
    · have hacc := accessors_eq_of_archAt hTcap (hTother ai2 hai2)
      exact hacc.2.2.2.2 ci2

theorem chunkCount_pos_ranges {s : Store} {ai ci : Nat} (h : 0 < s.chunkCount ai ci) :
    ai < s.archetypes.length ∧ ci < (s.archAt ai).chunks.length := by
  constructor
  · by_contra hc
    have h1 : s.archAt ai = emptyArch := getD_oob _ _ _ (Nat.le_of_not_lt hc)
    have h2 : s.chunkAt ai ci = emptyChunk s.cap (s.sigAt ai).length := by
      unfold Store.chunkAt
      rw [h1]
      exact getD_oob _ _ _ (by simp [emptyArch])
    unfold Store.chunkCount at h
    rw [h2] at h
    simp [emptyChunk] at h
  · by_contra hc
    have h2 : s.chunkAt ai ci = emptyChunk s.cap (s.sigAt ai).length :=
      getD_oob _ _ _ (Nat.le_of_not_lt hc)
    unfold Store.chunkCount at h
    rw [h2] at h
    simp [emptyChunk] at h

theorem removeSlot_phys {s T : Store} {ai ci sl : Nat}
    (hphys : PhysWF s)
    (hsl : sl < s.chunkCount ai ci)
    (hTcap : T.cap = s.cap)
    (hTarch : T.archetypes = s.archetypes.set ai
      { s.archetypes.getD ai emptyArch with
        chunks := (s.archetypes.getD ai emptyArch).chunks.set ci
          (((s.archetypes.getD ai emptyArch).chunks.getD ci
            (emptyChunk s.cap (s.archetypes.getD ai emptyArch).sig.length)).swapRemove sl) }) :
    PhysWF T ∧
    T.archetypes.length = s.archetypes.length ∧
    (∀ j, T.sigAt j = s.sigAt j) ∧
    (∀ j, j ≠ ai → T.archAt j = s.archAt j) ∧
    T.chunkCount ai ci = s.chunkCount ai ci - 1 ∧
    (∀ ai2 ci2, ¬(ai2 = ai ∧ ci2 = ci) → T.chunkCount ai2 ci2 = s.chunkCount ai2 ci2) ∧
    T.entityAt ai ci (s.chunkCount ai ci - 1) = none ∧
    (sl ≠ s.chunkCount ai ci - 1 →
      T.entityAt ai ci sl = s.entityAt ai ci (s.chunkCount ai ci - 1)) ∧
    (∀ j, j ≠ sl → j ≠ s.chunkCount ai ci - 1 → T.entityAt ai ci j = s.entityAt ai ci j) ∧
    (∀ ai2 ci2 j, ¬(ai2 = ai ∧ ci2 = ci) → T.entityAt ai2 ci2 j = s.entityAt ai2 ci2 j) ∧
    (∀ ai2 ci2 k j, ¬(ai2 = ai ∧ ci2 = ci) →
      T.valueAt ai2 ci2 k j = s.valueAt ai2 ci2 k j) := by
  obtain ⟨hcapP, hsorted, hnodup, hsigs, hchunks⟩ := hphys
  obtain ⟨hailt, hcilt⟩ := chunkCount_pos_ranges (Nat.lt_of_le_of_lt (Nat.zero_le _) hsl)
  have hcOldWF := hchunks ai ci hailt hcilt
  obtain ⟨hcW1, hcW2, hcW3, hcW4⟩ := hcOldWF
  have hchunkAt : s.chunkAt ai ci = (s.archetypes.getD ai emptyArch).chunks.getD ci
      (emptyChunk s.cap (s.archetypes.getD ai emptyArch).sig.length) := rfl
  have hTlen : T.archetypes.length = s.archetypes.length := by
    rw [hTarch]; exact List.length_set _ _ _
  have hTai : T.archetypes.getD ai emptyArch =
      { s.archetypes.getD ai emptyArch with
        chunks := (s.archetypes.getD ai emptyArch).chunks.set ci
          ((s.chunkAt ai ci).swapRemove sl) } := by
    rw [hTarch]
    exact getD_set_self _ _ _ _ hailt
  have hTother : ∀ j, j ≠ ai →
      T.archetypes.getD j emptyArch = s.archetypes.getD j emptyArch := by
    intro j hj
    rw [hTarch]
    exact getD_set_ne _ _ _ _ _ (fun hc => hj hc.symm)
  have hsigT : ∀ j, T.sigAt j = s.sigAt j := by
    intro j
    by_cases hj : j = ai
    · rw [hj]
      show (T.archetypes.getD ai emptyArch).sig = _
      rw [hTai]
      rfl
    · show (T.archetypes.getD j emptyArch).sig = _
      rw [hTother j hj]
      rfl
  have hTchunk_ci : T.chunkAt ai ci = (s.chunkAt ai ci).swapRemove sl := by
    show (T.archAt ai).chunks.getD ci (emptyChunk T.cap (T.sigAt ai).length) = _
    rw [show T.archAt ai = _ from hTai, hTcap, hsigT ai]
    show ((s.archetypes.getD ai emptyArch).chunks.set ci
      ((s.chunkAt ai ci).swapRemove sl)).getD ci (emptyChunk s.cap (s.sigAt ai).length) = _
    exact getD_set_self _ _ _ _ hcilt
  have hTchunk_ne : ∀ ci2, ci2 ≠ ci → T.chunkAt ai ci2 = s.chunkAt ai ci2 := by
    intro ci2 hci2
    show (T.archAt ai).chunks.getD ci2 (emptyChunk T.cap (T.sigAt ai).length) = _
    rw [show T.archAt ai = _ from hTai, hTcap, hsigT ai]
    show ((s.archetypes.getD ai emptyArch).chunks.set ci
      ((s.chunkAt ai ci).swapRemove sl)).getD ci2 (emptyChunk s.cap (s.sigAt ai).length) = _
    rw [getD_set_ne _ _ _ _ _ (fun hc => hci2 hc.symm)]
    rfl
  have hcnt : s.chunkCount ai ci = (s.chunkAt ai ci).count := rfl
  refine ⟨?_, hTlen, hsigT, ?_, ?_, ?_, ?_, ?_, ?_, ?_, ?_⟩
  · refine ⟨by rw [hTcap]; exact hcapP, ?_, ?_, ?_, ?_⟩
    · intro j hj
      rw [hsigT j]
      exact hsorted j (by omega)
    · intro j hj
      rw [hsigT j]
      exact hnodup j (by omega)
    · have h1 : ({ s.archetypes.getD ai emptyArch with
          chunks := (s.archetypes.getD ai emptyArch).chunks.set ci
            ((s.chunkAt ai ci).swapRemove sl) } : Archetype).sig =
          (s.archetypes.map Archetype.sig).getD ai [] := by
        rw [getD_map Archetype.sig _ _ emptyArch _ hailt]
      have hmapT : T.archetypes.map Archetype.sig = s.archetypes.map Archetype.sig := by
        rw [hTarch, map_set_comm]
        rw [show ({ s.archetypes.getD ai emptyArch with
          chunks := (s.archetypes.getD ai emptyArch).chunks.set ci
            (((s.archetypes.getD ai emptyArch).chunks.getD ci
              (emptyChunk s.cap (s.archetypes.getD ai emptyArch).sig.length)).swapRemove
              sl) } : Archetype).sig = (s.archetypes.map Archetype.sig).getD ai [] from h1]
        exact set_getD_self _ _ _
      rw [hmapT]
      exact hsigs
    · intro j ci2 hj hci2
      by_cases hjai : j = ai
      · rw [hjai] at hci2 ⊢
        rw [hTcap, hsigT ai]
        by_cases hc : ci2 = ci
        · rw [hc, hTchunk_ci]
          exact ChunkWF.swapRemove ⟨hcW1, hcW2, hcW3, hcW4⟩ sl (by omega)
        · rw [hTchunk_ne ci2 hc]
          have h2 : (T.archAt ai).chunks.length = (s.archAt ai).chunks.length := by
            show (T.archetypes.getD ai emptyArch).chunks.length = _
            rw [hTai]
            show ((s.archetypes.getD ai emptyArch).chunks.set ci
              ((s.chunkAt ai ci).swapRemove sl)).length = _
            rw [List.length_set]
            rfl
          have hlen2 : ci2 < (s.archAt ai).chunks.length := by omega
          exact hchunks ai ci2 hailt hlen2
      · have hacc := accessors_eq_of_archAt hTcap (hTother j hjai)
        have hX : (T.archAt j).chunks.length = (s.archAt j).chunks.length := by
          show (T.archetypes.getD j emptyArch).chunks.length = _
          rw [hTother j hjai]
          rfl
        rw [hTcap, hacc.1, hacc.2.1 ci2]
        rw [hX] at hci2
        exact hchunks j ci2 (by omega) hci2
  · intro j hj
    exact hTother j hj
  · show (T.chunkAt ai ci).count = _
    rw [hTchunk_ci, swapRemove_count, hcnt]
  · intro ai2 ci2 hne
    by_cases hai2 : ai2 = ai
    · rw [hai2]
      have hci2 : ci2 ≠ ci := fun h => hne ⟨hai2, h⟩
      show (T.chunkAt ai ci2).count = (s.chunkAt ai ci2).count
      rw [hTchunk_ne ci2 hci2]
    · have hacc := accessors_eq_of_archAt hTcap (hTother ai2 hai2)
      exact hacc.2.2.2.2 ci2
  · show (T.chunkAt ai ci).entities.getD (s.chunkCount ai ci - 1) none = none
    rw [hTchunk_ci, hcnt]
    exact swapRemove_entities_last _ _
  · intro hne
    show (T.chunkAt ai ci).entities.getD sl none = _
    rw [hTchunk_ci]
    have h1 : sl < (s.chunkAt ai ci).entities.length := by
      have := hcW3.1
      omega
    rw [swapRemove_entities_at _ _ (by rw [← hcnt]; exact hne) h1]
    rfl
  · intro j hj1 hj2
    show (T.chunkAt ai ci).entities.getD j none = _
    rw [hTchunk_ci]
    rw [swapRemove_entities_other _ _ _ hj1 (by rw [← hcnt]; exact hj2)]
    rfl
  · intro ai2 ci2 j hne
    by_cases hai2 : ai2 = ai
    · rw [hai2]
      have hci2 : ci2 ≠ ci := fun h => hne ⟨hai2, h⟩
      show (T.chunkAt ai ci2).entities.getD j none = _
      rw [hTchunk_ne ci2 hci2]
      rfl
    · have hacc := accessors_eq_of_archAt hTcap (hTother ai2 hai2)
      exact hacc.2.2.1 ci2 j
  · intro ai2 ci2 k j hne
    by_cases hai2 : ai2 = ai
    · rw [hai2]
      have hci2 : ci2 ≠ ci := fun h => hne ⟨hai2, h⟩
      show ((T.chunkAt ai ci2).cols.getD k []).getD j none = _
      rw [hTchunk_ne ci2 hci2]
      rfl
    · have hacc := accessors_eq_of_archAt hTcap (hTother ai2 hai2)
      exact hacc.2.2.2.1 ci2 k j

theorem entityAt_none_of_count_le {s : Store} (hphys : PhysWF s) (ai ci j : Nat)
    (h : s.chunkCount ai ci ≤ j) : s.entityAt ai ci j = none := by
  by_cases hai : ai < s.archetypes.length
  · by_cases hci : ci < (s.archAt ai).chunks.length
    · have hW := hphys.chunksWF ai ci hai hci
      exact hW.2.2.1.2.2 j h
    · show (s.chunkAt ai ci).entities.getD j none = none
      rw [show s.chunkAt ai ci = emptyChunk s.cap (s.sigAt ai).length from
        getD_oob _ _ _ (Nat.le_of_not_lt hci)]
      exact emptyChunk_entities_getD _ _ _
  · show (s.chunkAt ai ci).entities.getD j none = none
    have h1 : s.archAt ai = emptyArch := getD_oob _ _ _ (Nat.le_of_not_lt hai)
    rw [show s.chunkAt ai ci = emptyChunk s.cap (s.sigAt ai).length from by
      unfold Store.chunkAt
      rw [h1]
      exact getD_oob _ _ _ (by simp [emptyArch])]
    exact emptyChunk_entities_getD _ _ _

theorem getD_some_lt {α : Type} {l : List (Option α)} {i : Nat} {x : α}
    (h : l.getD i none = some x) : i < l.length :=
  getD_isSome_lt l i (by rw [h]; rfl)

theorem spawn_eq {s : Store} {tm : Template} {ai : Nat} {s1 : Store}
    {a2 : Archetype} {ci sl : Nat}
    (hA : s.archetypeFor (canon (tm.map Prod.fst)) = (ai, s1))
    (hB : (s1.archetypes.getD ai emptyArch).insertRow s.cap s.nextId
      ((canon (tm.map Prod.fst)).map (fun t => (tmplGet tm t).getD 0)) = (a2, ci, sl)) :
    s.spawn tm = { cap := s1.cap, archetypes := s1.archetypes.set ai a2,
                   refs := s1.refs ++ [(s.nextId : Int)],
                   locs := s1.locs ++ [some { arch := ai, chunk := ci, slot := sl }],
                   nextId := s.nextId + 1 } := by
  simp only [Store.spawn, hA, hB]

theorem wf_spawn {s : Store} (hwf : StoreWF s) (tm : Template) : StoreWF (s.spawn tm) := by
  obtain ⟨hphys, hrefsLen, hlocsLen, hrefsVal, hrefsLoc, hlocSound, hslotSound⟩ := hwf
  rcases hA : s.archetypeFor (canon (tm.map Prod.fst)) with ⟨ai, s1⟩
  rcases hB : (s1.archetypes.getD ai emptyArch).insertRow s.cap s.nextId
      ((canon (tm.map Prod.fst)).map (fun t => (tmplGet tm t).getD 0)) with ⟨a2, ci, sl⟩
  obtain ⟨hfc, hfr, hfl, hfn⟩ := archetypeFor_fields hA
  rw [spawn_eq hA hB]
  obtain ⟨hP, hI2, hI3, hI4, hI5, hI6, hI7, hI8, hI9, hI10, hI11, hI12⟩ :=
    insert_phys (T := { cap := s1.cap, archetypes := s1.archetypes.set ai a2,
                        refs := s1.refs ++ [(s.nextId : Int)],
                        locs := s1.locs ++ [some { arch := ai, chunk := ci, slot := sl }],
                        nextId := s.nextId + 1 })
      hphys (canon_sorted _) (canon_nodup _) (by simp) hA hB hfc rfl
  have hrlen1 : s1.refs.length = s.nextId := by rw [hfr]; exact hrefsLen
  have hllen1 : s1.locs.length = s.nextId := by rw [hfl]; exact hlocsLen
  have holdNone : s.entityAt ai ci sl = none :=
    entityAt_none_of_count_le hphys ai ci sl (Nat.le_of_eq hI6.symm)
  have hcntGe : ∀ ai2 ci2,
      s.chunkCount ai2 ci2 ≤
        ({ cap := s1.cap, archetypes := s1.archetypes.set ai a2,
           refs := s1.refs ++ [(s.nextId : Int)],
           locs := s1.locs ++ [some { arch := ai, chunk := ci, slot := sl }],
           nextId := s.nextId + 1 } : Store).chunkCount ai2 ci2 := by
    intro ai2 ci2
    by_cases hp : ai2 = ai ∧ ci2 = ci
    · rw [hp.1, hp.2, hI8, ← hI6]
      omega
    · rw [hI12 ai2 ci2 hp]
  refine ⟨hP, ?_, ?_, ?_, ?_, ?_, ?_⟩
  · show (s1.refs ++ [(s.nextId : Int)]).length = s.nextId + 1
    rw [List.length_append, hrlen1]
    rfl
  · show (s1.locs ++ [some (EntityLoc.mk ai ci sl)]).length = s.nextId + 1
    rw [List.length_append, hllen1]
    rfl
  · intro i
    show (s1.refs ++ [(s.nextId : Int)]).getD i MIN_VALUE = MIN_VALUE ∨
      (s1.refs ++ [(s.nextId : Int)]).getD i MIN_VALUE = (i : Int)
    rcases Nat.lt_trichotomy i s.nextId with hlt | heq | hgt
    · rw [getD_append_lt _ _ _ _ (by omega), hfr]
      exact hrefsVal i
    · rw [heq, ← hrlen1, getD_append_len]
      right
      rw [hrlen1]
    · rw [getD_append_gt _ _ _ _ (by omega)]
      left
      rfl
  · intro i
    show (s1.refs ++ [(s.nextId : Int)]).getD i MIN_VALUE ≠ MIN_VALUE ↔
      ((s1.locs ++ [some (EntityLoc.mk ai ci sl)]).getD i none).isSome = true
    rcases Nat.lt_trichotomy i s.nextId with hlt | heq | hgt
    · rw [getD_append_lt _ _ _ _ (by omega), getD_append_lt _ _ _ _ (by omega), hfr, hfl]
      exact hrefsLoc i
    · rw [heq, ← hrlen1, getD_append_len, hrlen1, ← hllen1, getD_append_len]
      constructor
      · intro _
        rfl
      · intro _
        simp only [MIN_VALUE]
        omega
    · rw [getD_append_gt _ _ _ _ (by omega), getD_append_gt _ _ _ _ (by omega)]
      simp
  · intro e loc h
    have h2 : (s1.locs ++ [some (EntityLoc.mk ai ci sl)]).getD e none =
        some loc := h
    rcases Nat.lt_trichotomy e s.nextId with hlt | heq | hgt
    · rw [getD_append_lt _ _ _ _ (by omega), hfl] at h2
      obtain ⟨hL1, hL2⟩ := hlocSound e loc h2
      constructor
      · exact Nat.lt_of_lt_of_le hL1 (hcntGe loc.arch loc.chunk)
      · have hne : ¬(loc.arch = ai ∧ loc.chunk = ci ∧ loc.slot = sl) := by
          intro ⟨ha, hc, hs⟩
          rw [ha, hc, hs] at hL2
          rw [holdNone] at hL2
          exact Option.noConfusion hL2
        rw [hI11 loc.arch loc.chunk loc.slot hne]
        exact hL2
    · rw [heq, ← hllen1, getD_append_len] at h2
      have h3 : loc = EntityLoc.mk ai ci sl := (Option.some_injective _ h2).symm
      rw [h3, heq]
      exact ⟨Nat.lt_of_lt_of_le (Nat.lt_succ_self sl) (Nat.le_of_eq hI8.symm), hI9⟩
    · rw [getD_append_gt _ _ _ _ (by omega)] at h2
      exact Option.noConfusion h2
  · intro ai2 ci2 j e h
    by_cases htriple : ai2 = ai ∧ ci2 = ci ∧ j = sl
    · obtain ⟨h1, h2, h3⟩ := htriple
      rw [h1, h2, h3, hI9] at h
      cases h
      show (s1.locs ++ [some (EntityLoc.mk ai ci sl)]).getD s.nextId none =
        some (EntityLoc.mk ai2 ci2 j)
      rw [← hllen1, getD_append_len, h1, h2, h3]
    · rw [hI11 ai2 ci2 j htriple] at h
      have h4 := hslotSound ai2 ci2 j e h
      have h5 : e < s.locs.length := getD_some_lt h4
      show (s1.locs ++ [some (EntityLoc.mk ai ci sl)]).getD e none =
        some (EntityLoc.mk ai2 ci2 j)
      rw [getD_append_lt _ _ _ _ (by rw [hfl]; omega), hfl]
      exact h4

theorem entityAt_isSome_of_lt_count {s : Store} (hphys : PhysWF s) {ai ci j : Nat}
    (h : j < s.chunkCount ai ci) : (s.entityAt ai ci j).isSome = true := by
  obtain ⟨hai, hci⟩ := chunkCount_pos_ranges (Nat.lt_of_le_of_lt (Nat.zero_le _) h)
  exact (hphys.chunksWF ai ci hai hci).2.2.1.2.1 j h

theorem resolve_some_spec {s : Store} (hwf : StoreWF s) {r : Ref} {loc : EntityLoc}
    (h : s.resolve r = some loc) :
    s.refIndex r = (r.id : Int) ∧ s.locs.getD r.id none = some loc ∧
    loc.slot < s.chunkCount loc.arch loc.chunk ∧
    s.entityAt loc.arch loc.chunk loc.slot = some r.id := by
  by_cases hidx : s.refIndex r = MIN_VALUE
  · rw [Store.resolve, if_pos hidx] at h
    exact Option.noConfusion h
  · rw [Store.resolve, if_neg hidx] at h
    have h1 : s.refIndex r = (r.id : Int) := by
      rcases hwf.refsVal r.id with h2 | h2
      · exact absurd h2 hidx
      · exact h2
    rw [h1] at h
    rw [show ((r.id : Int)).toNat = r.id from Int.toNat_natCast r.id] at h
    obtain ⟨h2, h3⟩ := hwf.locSound r.id loc h
    exact ⟨h1, h, h2, h3⟩

theorem resolve_none_of_invalid {s : Store} {r : Ref} (h : s.refIndex r = MIN_VALUE) :
    s.resolve r = none := by
  rw [Store.resolve, if_pos h]

theorem despawn_eq {s : Store} {r : Ref} {loc : EntityLoc} (hres : s.resolve r = some loc) :
    s.despawn r = { s with
      archetypes := s.archetypes.set loc.arch
        { s.archetypes.getD loc.arch emptyArch with
          chunks := (s.archetypes.getD loc.arch emptyArch).chunks.set loc.chunk
            ((s.chunkAt loc.arch loc.chunk).swapRemove loc.slot) },
      locs := (if loc.slot = s.chunkCount loc.arch loc.chunk - 1 then s.locs
        else match s.entityAt loc.arch loc.chunk (s.chunkCount loc.arch loc.chunk - 1) with
          | some m => s.locs.set m (some (EntityLoc.mk loc.arch loc.chunk loc.slot))
          | none => s.locs).set (s.refIndex r).toNat none,
      refs := s.refs.set r.id MIN_VALUE } := by
  simp only [Store.despawn, hres]
  rfl

theorem wf_despawn {s : Store} (hwf : StoreWF s) (r : Ref) : StoreWF (s.despawn r) := by
  cases hres : s.resolve r with
  | none =>
    simp only [Store.despawn, hres]
    exact hwf
  | some loc =>
    obtain ⟨hridx, hrloc, hslt, hrent⟩ := resolve_some_spec hwf hres
    obtain ⟨hphysOld, hrefsLen, hlocsLen, hrefsVal, hrefsLoc, hlocSound, hslotSound⟩ := hwf
    have hridlt : r.id < s.nextId := by
      have := getD_some_lt hrloc
      omega
    have hmovedSome : (s.entityAt loc.arch loc.chunk
        (s.chunkCount loc.arch loc.chunk - 1)).isSome = true :=
      entityAt_isSome_of_lt_count hphysOld (by omega)
    rcases Option.isSome_iff_exists.mp hmovedSome with ⟨m, hm⟩
    have hmloc : s.locs.getD m none =
        some { arch := loc.arch, chunk := loc.chunk,
               slot := s.chunkCount loc.arch loc.chunk - 1 } :=
      hslotSound _ _ _ _ hm
    have hmlt : m < s.nextId := by
      have := getD_some_lt hmloc
      omega
    have htonat : (s.refIndex r).toNat = r.id := by
      rw [hridx]
      exact Int.toNat_natCast r.id
    rw [despawn_eq hres, htonat]
    by_cases hcase : loc.slot = s.chunkCount loc.arch loc.chunk - 1
    · rw [if_pos hcase]
      have hmr : r.id = m := by
        rw [hcase] at hrent
        rw [hrent] at hm
        exact Option.some_injective _ hm
      obtain ⟨hP, hDlen, hDsig, hDarch, hDcnt, hDcnt2, hDlast, hDmove, hDother, hDoff, hDval⟩ :=
        removeSlot_phys (T := { s with
          archetypes := s.archetypes.set loc.arch
            { s.archetypes.getD loc.arch emptyArch with
              chunks := (s.archetypes.getD loc.arch emptyArch).chunks.set loc.chunk
                ((s.chunkAt loc.arch loc.chunk).swapRemove loc.slot) },
          locs := s.locs.set r.id none,
          refs := s.refs.set r.id MIN_VALUE }) hphysOld hslt rfl rfl
      refine ⟨hP, ?_, ?_, ?_, ?_, ?_, ?_⟩
      · show (s.refs.set r.id MIN_VALUE).length = s.nextId
        rw [List.length_set]
        exact hrefsLen
      · show (s.locs.set r.id none).length = s.nextId
        rw [List.length_set]
        exact hlocsLen
      · intro i
        show (s.refs.set r.id MIN_VALUE).getD i MIN_VALUE = MIN_VALUE ∨ _
        by_cases hi : i = r.id
        · rw [hi, getD_set_self _ _ _ _ (by omega)]
          left
          rfl
        · rw [getD_set_ne _ _ _ _ _ (fun hc => hi hc.symm)]
          exact hrefsVal i
      · intro i
        show (s.refs.set r.id MIN_VALUE).getD i MIN_VALUE ≠ MIN_VALUE ↔
          ((s.locs.set r.id none).getD i none).isSome = true
        by_cases hi : i = r.id
        · rw [hi, getD_set_self _ _ _ _ (by omega), getD_set_self _ _ _ _ (by omega)]
          simp
        · rw [getD_set_ne _ _ _ _ _ (fun hc => hi hc.symm),
            getD_set_ne _ _ _ _ _ (fun hc => hi hc.symm)]
          exact hrefsLoc i
      · intro e loc2 h
        have he : e ≠ r.id := by
          intro hc
          rw [hc] at h
          rw [show ((s.locs.set r.id none).getD r.id none) = none from
            getD_set_self _ _ _ _ (by omega)] at h
          exact Option.noConfusion h
        rw [show ((s.locs.set r.id none).getD e none) = s.locs.getD e none from
          getD_set_ne _ _ _ _ _ (fun hc => he hc.symm)] at h
        obtain ⟨h1, h2⟩ := hlocSound e loc2 h
        by_cases hpair : loc2.arch = loc.arch ∧ loc2.chunk = loc.chunk
        · have hne_last : loc2.slot ≠ s.chunkCount loc.arch loc.chunk - 1 := by
            intro hc
            rw [hpair.1, hpair.2, hc, hm] at h2
            have : e = m := (Option.some_injective _ h2.symm)
            exact he (by rw [this, hmr])
          constructor
          · rw [hpair.1, hpair.2, hDcnt]
            rw [hpair.1, hpair.2] at h1
            omega
          · rw [hpair.1, hpair.2]
            rw [hpair.1, hpair.2] at h2
            rw [hDother loc2.slot (by rw [← hcase] at hne_last; exact hne_last) hne_last]
            exact h2
        · constructor
          · rw [hDcnt2 loc2.arch loc2.chunk hpair]
            exact h1
          · rw [hDoff loc2.arch loc2.chunk loc2.slot hpair]
            exact h2
      · intro ai2 ci2 j e h
        by_cases hpair : ai2 = loc.arch ∧ ci2 = loc.chunk
        · by_cases hj : j = s.chunkCount loc.arch loc.chunk - 1
          · rw [hpair.1, hpair.2, hj, hDlast] at h
            exact Option.noConfusion h
          · rw [hpair.1, hpair.2,
              hDother j (by rw [← hcase] at hj; exact hj) hj] at h
            have h4 := hslotSound loc.arch loc.chunk j e h
            have he : e ≠ r.id := by
              intro hc
              rw [hc, hrloc] at h4
              have : loc = EntityLoc.mk loc.arch loc.chunk j :=
                Option.some_injective _ h4
              apply hj
              rw [← hcase]
              rw [show loc.slot = j from by rw [this]]
            show ((s.locs.set r.id none).getD e none) = _
            rw [getD_set_ne _ _ _ _ _ (fun hc => he hc.symm), hpair.1, hpair.2]
            exact h4
        · rw [hDoff ai2 ci2 j hpair] at h
          have h4 := hslotSound ai2 ci2 j e h
          have he : e ≠ r.id := by
            intro hc
            rw [hc, hrloc] at h4
            have : loc = EntityLoc.mk ai2 ci2 j := Option.some_injective _ h4
            exact hpair ⟨by rw [this], by rw [this]⟩
          show ((s.locs.set r.id none).getD e none) = _
          rw [getD_set_ne _ _ _ _ _ (fun hc => he hc.symm)]
          exact h4
    · rw [if_neg hcase, hm]
      have hmr : m ≠ r.id := by
        intro hc
        rw [hc, hrloc] at hmloc
        have : loc = EntityLoc.mk loc.arch loc.chunk
            (s.chunkCount loc.arch loc.chunk - 1) := Option.some_injective _ hmloc
        apply hcase
        rw [show loc.slot = s.chunkCount loc.arch loc.chunk - 1 from by rw [this]]
      obtain ⟨hP, hDlen, hDsig, hDarch, hDcnt, hDcnt2, hDlast, hDmove, hDother, hDoff, hDval⟩ :=
        removeSlot_phys (T := { s with
          archetypes := s.archetypes.set loc.arch
            { s.archetypes.getD loc.arch emptyArch with
              chunks := (s.archetypes.getD loc.arch emptyArch).chunks.set loc.chunk
                ((s.chunkAt loc.arch loc.chunk).swapRemove loc.slot) },
          locs := (s.locs.set m
            (some (EntityLoc.mk loc.arch loc.chunk loc.slot))).set r.id none,
          refs := s.refs.set r.id MIN_VALUE }) hphysOld hslt rfl rfl
      have hmoveE := hDmove hcase
      have hgetm : ((s.locs.set m (some (EntityLoc.mk loc.arch loc.chunk loc.slot))).set
          r.id none).getD m none = some (EntityLoc.mk loc.arch loc.chunk loc.slot) := by
        rw [getD_set_ne _ _ _ _ _ (fun hc => hmr hc.symm),
          getD_set_self _ _ _ _ (by omega)]
      have hgetr : ((s.locs.set m (some (EntityLoc.mk loc.arch loc.chunk loc.slot))).set
          r.id none).getD r.id none = none :=
        getD_set_self _ _ _ _ (by rw [List.length_set]; omega)
      have hgeto : ∀ e, e ≠ m → e ≠ r.id →
          ((s.locs.set m (some (EntityLoc.mk loc.arch loc.chunk loc.slot))).set
            r.id none).getD e none = s.locs.getD e none := by
        intro e h1 h2
        rw [getD_set_ne _ _ _ _ _ (fun hc => h2 hc.symm),
          getD_set_ne _ _ _ _ _ (fun hc => h1 hc.symm)]
      refine ⟨hP, ?_, ?_, ?_, ?_, ?_, ?_⟩
      · show (s.refs.set r.id MIN_VALUE).length = s.nextId
        rw [List.length_set]
        exact hrefsLen
      · show ((s.locs.set m (some (EntityLoc.mk loc.arch loc.chunk loc.slot))).set
          r.id none).length = s.nextId
        rw [List.length_set, List.length_set]
        exact hlocsLen
      · intro i
        show (s.refs.set r.id MIN_VALUE).getD i MIN_VALUE = MIN_VALUE ∨ _
        by_cases hi : i = r.id
        · rw [hi, getD_set_self _ _ _ _ (by omega)]
          left
          rfl
        · rw [getD_set_ne _ _ _ _ _ (fun hc => hi hc.symm)]
          exact hrefsVal i
      · intro i
        show (s.refs.set r.id MIN_VALUE).getD i MIN_VALUE ≠ MIN_VALUE ↔ _
        by_cases hi : i = r.id
        · rw [hi, getD_set_self _ _ _ _ (by omega), hgetr]
          simp
        · rw [getD_set_ne _ _ _ _ _ (fun hc => hi hc.symm)]
          by_cases him : i = m
          · rw [him, hgetm]
            constructor
            · intro _
              rfl
            · intro _
              exact (hrefsLoc m).mpr (by rw [hmloc]; rfl)
          · rw [hgeto i him hi]
            exact hrefsLoc i
      · intro e loc2 h
        have he : e ≠ r.id := by
          intro hc
          rw [hc, hgetr] at h
          exact Option.noConfusion h
        by_cases hem : e = m
        · rw [hem, hgetm] at h
          have hloc2 : loc2 = EntityLoc.mk loc.arch loc.chunk loc.slot :=
            (Option.some_injective _ h).symm
          rw [hloc2]
          constructor
          · show loc.slot < _
            rw [show (EntityLoc.mk loc.arch loc.chunk loc.slot).arch = loc.arch from rfl,
              show (EntityLoc.mk loc.arch loc.chunk loc.slot).chunk = loc.chunk from rfl,
              hDcnt]
            omega
          · show _ = some e
            rw [hem]
            rw [show (EntityLoc.mk loc.arch loc.chunk loc.slot).arch = loc.arch from rfl,
              show (EntityLoc.mk loc.arch loc.chunk loc.slot).chunk = loc.chunk from rfl,
              show (EntityLoc.mk loc.arch loc.chunk loc.slot).slot = loc.slot from rfl,
              hmoveE]
            exact hm
        · rw [hgeto e hem he] at h
          obtain ⟨h1, h2⟩ := hlocSound e loc2 h
          by_cases hpair : loc2.arch = loc.arch ∧ loc2.chunk = loc.chunk
          · have hne_last : loc2.slot ≠ s.chunkCount loc.arch loc.chunk - 1 := by
              intro hc
              rw [hpair.1, hpair.2, hc, hm] at h2
              exact hem (Option.some_injective _ h2.symm)
            have hne_sl : loc2.slot ≠ loc.slot := by
              intro hc
              rw [hpair.1, hpair.2, hc, hrent] at h2
              exact he (Option.some_injective _ h2.symm)
            constructor
            · rw [hpair.1, hpair.2, hDcnt]
              rw [hpair.1, hpair.2] at h1
              omega
            · rw [hpair.1, hpair.2]
              rw [hpair.1, hpair.2] at h2
              rw [hDother loc2.slot hne_sl hne_last]
              exact h2
          · constructor
            · rw [hDcnt2 loc2.arch loc2.chunk hpair]
              exact h1
            · rw [hDoff loc2.arch loc2.chunk loc2.slot hpair]
              exact h2
      · intro ai2 ci2 j e h
        by_cases hpair : ai2 = loc.arch ∧ ci2 = loc.chunk
        · by_cases hj : j = s.chunkCount loc.arch loc.chunk - 1
          · rw [hpair.1, hpair.2, hj, hDlast] at h
            exact Option.noConfusion h
          · by_cases hjsl : j = loc.slot
            · rw [hpair.1, hpair.2, hjsl, hmoveE, hm] at h
              have hme : e = m := Option.some_injective _ h.symm
              rw [hme, hgetm, hpair.1, hpair.2, hjsl]
            · rw [hpair.1, hpair.2, hDother j hjsl hj] at h
              have h4 := hslotSound loc.arch loc.chunk j e h
              have he : e ≠ r.id := by
                intro hc
                rw [hc, hrloc] at h4
                have : loc = EntityLoc.mk loc.arch loc.chunk j :=
                  Option.some_injective _ h4
                have hsl2 : loc.slot = j := by rw [this]
                exact hjsl hsl2.symm
              have hem : e ≠ m := by
                intro hc
                rw [hc, hmloc] at h4
                have h5 : EntityLoc.mk loc.arch loc.chunk
                    (s.chunkCount loc.arch loc.chunk - 1) =
                    EntityLoc.mk loc.arch loc.chunk j := Option.some_injective _ h4
                exact hj (congrArg EntityLoc.slot h5).symm
              rw [hgeto e hem he, hpair.1, hpair.2]
              exact h4
        · rw [hDoff ai2 ci2 j hpair] at h
          have h4 := hslotSound ai2 ci2 j e h
          have he : e ≠ r.id := by
            intro hc
            rw [hc, hrloc] at h4
            have : loc = EntityLoc.mk ai2 ci2 j := Option.some_injective _ h4
            exact hpair ⟨by rw [this], by rw [this]⟩
          have hem : e ≠ m := by
            intro hc
            rw [hc, hmloc] at h4
            have h5 : EntityLoc.mk loc.arch loc.chunk
                (s.chunkCount loc.arch loc.chunk - 1) =
                EntityLoc.mk ai2 ci2 j := Option.some_injective _ h4
            exact hpair ⟨(congrArg EntityLoc.arch h5).symm, (congrArg EntityLoc.chunk h5).symm⟩
          rw [hgeto e hem he]
          exact h4

theorem physWF_congr {t u : Store} (hc : u.cap = t.cap)
    (ha : u.archetypes = t.archetypes) (h : PhysWF t) : PhysWF u := by
  have harch : ∀ ai, u.archAt ai = t.archAt ai := by
    intro ai
    unfold Store.archAt
    rw [ha]
  refine ⟨by rw [hc]; exact h.capPos, ?_, ?_, ?_, ?_⟩
  · intro ai hai
    rw [(accessors_eq_of_archAt hc (harch ai)).1]
    rw [ha] at hai
    exact h.archSorted ai hai
  · intro ai hai
    rw [(accessors_eq_of_archAt hc (harch ai)).1]
    rw [ha] at hai
    exact h.archNodup ai hai
  · rw [ha]
    exact h.sigsNodup
  · intro ai ci hai hci
    have hacc := accessors_eq_of_archAt hc (harch ai)
    rw [hc, hacc.1, hacc.2.1 ci]
    rw [ha] at hai
    rw [show (u.archAt ai).chunks.length = (t.archAt ai).chunks.length from by
      rw [harch ai]] at hci
    exact h.chunksWF ai ci hai hci

theorem migrate_eq {s : Store} {r : Ref} {loc : EntityLoc} {newSig : Signature}
    {vals : List Val} {aiD : Nat} {s1 : Store} {a2 : Archetype} {ciD slD : Nat}
    (hA : s.archetypeFor newSig = (aiD, s1))
    (hB : (s1.archetypes.getD aiD emptyArch).insertRow s.cap (s.refIndex r).toNat vals =
      (a2, ciD, slD)) :
    s.migrate r loc newSig vals =
      { cap := s1.cap,
        archetypes :=
          (removeAt (migrateMid s s1 aiD a2) loc.arch loc.chunk loc.slot).archetypes,
        refs := s1.refs,
        locs := (if loc.slot = (migrateMid s s1 aiD a2).chunkCount loc.arch loc.chunk - 1
            then s1.locs
            else Option.elim ((migrateMid s s1 aiD a2).entityAt loc.arch loc.chunk
                ((migrateMid s s1 aiD a2).chunkCount loc.arch loc.chunk - 1)) s1.locs
              (fun m =>
                s1.locs.set m (some (EntityLoc.mk loc.arch loc.chunk
                  loc.slot)))).set (s.refIndex r).toNat (some (EntityLoc.mk aiD ciD slD)),
        nextId := s1.nextId } := by
  simp only [Store.migrate, hA, hB]
  rfl

theorem migrate_spec {s : Store} (hwf : StoreWF s) {r : Ref} {loc : EntityLoc}
    (hres : s.resolve r = some loc)
    {newSig : Signature} (hsortedS : newSig.Sorted (· ≤ ·)) (hnodupS : newSig.Nodup)
    (hdiff : newSig ≠ s.sigAt loc.arch)
    {vals : List Val} (hvlen : vals.length = newSig.length) :
    StoreWF (s.migrate r loc newSig vals) ∧
    (s.migrate r loc newSig vals).refs = s.refs ∧
    (∃ loc2, (s.migrate r loc newSig vals).locs.getD r.id none = some loc2 ∧
      (s.migrate r loc newSig vals).sigAt loc2.arch = newSig ∧
      loc2.arch < (s.migrate r loc newSig vals).archetypes.length ∧
      (∀ k, k < newSig.length →
        (s.migrate r loc newSig vals).valueAt loc2.arch loc2.chunk k loc2.slot =
          some (vals.getD k 0))) ∧
    (s.migrate r loc newSig vals).cap = s.cap ∧
    (s.migrate r loc newSig vals).nextId = s.nextId := by
  obtain ⟨hridx, hrloc, hslt, hrent⟩ := resolve_some_spec hwf hres
  obtain ⟨hphysOld, hrefsLen, hlocsLen, hrefsVal, hrefsLoc, hlocSound, hslotSound⟩ := hwf
  have htonat : (s.refIndex r).toNat = r.id := by
    rw [hridx]
    exact Int.toNat_natCast r.id
  have hridlt : r.id < s.nextId := by
    have := getD_some_lt hrloc
    omega
  obtain ⟨hlocA, hlocC⟩ := chunkCount_pos_ranges (Nat.lt_of_le_of_lt (Nat.zero_le _) hslt)
  rcases hA : s.archetypeFor newSig with ⟨aiD, s1⟩
  obtain ⟨hfc, hfr, hfl, hfn⟩ := archetypeFor_fields hA
  obtain ⟨hA1, hA2, hA3, hA4, hA5⟩ := archetypeFor_spec hA
  rcases hB : (s1.archetypes.getD aiD emptyArch).insertRow s.cap (s.refIndex r).toNat vals
    with ⟨a2, ciD, slD⟩
  have hB2 : (s1.archetypes.getD aiD emptyArch).insertRow s.cap r.id vals = (a2, ciD, slD) := by
    rw [← htonat]
    exact hB
  rw [migrate_eq hA hB, htonat, hfc, hfr, hfl, hfn]
  obtain ⟨hP2, hI2, hI3, hI4, hI5, hI6, hI7, hI8, hI9, hI10, hI11, hI12⟩ :=
    insert_phys (T := migrateMid s s1 aiD a2) hphysOld hsortedS hnodupS hvlen hA hB2 rfl rfl
  have hne_arch : aiD ≠ loc.arch := by
    intro hceq
    rcases hA5 with heq | ⟨_, hai, _, _⟩
    · apply hdiff
      have h1 : s.sigAt aiD = newSig := by
        show (s.archetypes.getD aiD emptyArch).sig = newSig
        rw [← heq]
        exact hA2
      rw [← hceq]
      exact h1.symm
    · omega
  have hpairne : ¬(loc.arch = aiD ∧ loc.chunk = ciD) := fun h => hne_arch h.1.symm
  have hpairne2 : ¬(aiD = loc.arch ∧ ciD = loc.chunk) := fun h => hne_arch h.1
  have hcnt2 : (migrateMid s s1 aiD a2).chunkCount loc.arch loc.chunk =
      s.chunkCount loc.arch loc.chunk := hI12 loc.arch loc.chunk hpairne
  have hsl2 : loc.slot < (migrateMid s s1 aiD a2).chunkCount loc.arch loc.chunk := by
    rw [hcnt2]
    exact hslt
  obtain ⟨hP3, hDlen, hDsig, hDarch, hDcnt, hDcnt2, hDlast, hDmove, hDother, hDoff, hDval⟩ :=
    removeSlot_phys (s := migrateMid s s1 aiD a2)
      (T := removeAt (migrateMid s s1 aiD a2) loc.arch loc.chunk loc.slot)
      hP2 hsl2 rfl rfl
  have hmovedSome : (s.entityAt loc.arch loc.chunk
      (s.chunkCount loc.arch loc.chunk - 1)).isSome = true :=
    entityAt_isSome_of_lt_count hphysOld (by omega)
  rcases Option.isSome_iff_exists.mp hmovedSome with ⟨m, hm⟩
  have hmloc : s.locs.getD m none =
      some (EntityLoc.mk loc.arch loc.chunk (s.chunkCount loc.arch loc.chunk - 1)) :=
    hslotSound _ _ _ _ hm
  have hmlt : m < s.nextId := by
    have := getD_some_lt hmloc
    omega
  have hGcnt_src : (removeAt (migrateMid s s1 aiD a2) loc.arch loc.chunk
      loc.slot).chunkCount loc.arch loc.chunk = s.chunkCount loc.arch loc.chunk - 1 := by
    rw [hDcnt, hcnt2]
  have hGcnt_dest : (removeAt (migrateMid s s1 aiD a2) loc.arch loc.chunk
      loc.slot).chunkCount aiD ciD = slD + 1 := by
    rw [hDcnt2 aiD ciD hpairne2]
    exact hI8
  have hGcnt_other : ∀ ai2 ci2, ¬(ai2 = loc.arch ∧ ci2 = loc.chunk) →
      ¬(ai2 = aiD ∧ ci2 = ciD) →
      (removeAt (migrateMid s s1 aiD a2) loc.arch loc.chunk loc.slot).chunkCount ai2 ci2 =
        s.chunkCount ai2 ci2 := by
    intro ai2 ci2 h1 h2
    rw [hDcnt2 ai2 ci2 h1]
    exact hI12 ai2 ci2 h2
  have hGlast : (removeAt (migrateMid s s1 aiD a2) loc.arch loc.chunk loc.slot).entityAt
      loc.arch loc.chunk (s.chunkCount loc.arch loc.chunk - 1) = none := by
    have h1 := hDlast
    rw [hcnt2] at h1
    exact h1
  have hGmove : loc.slot ≠ s.chunkCount loc.arch loc.chunk - 1 →
      (removeAt (migrateMid s s1 aiD a2) loc.arch loc.chunk loc.slot).entityAt
        loc.arch loc.chunk loc.slot = some m := by
    intro hne
    have h1 := hDmove (by rw [hcnt2]; exact hne)
    rw [hcnt2] at h1
    rw [h1, hI11 loc.arch loc.chunk _ (fun hc => hpairne ⟨hc.1, hc.2.1⟩)]
    exact hm
  have hGother_src : ∀ j, j ≠ loc.slot → j ≠ s.chunkCount loc.arch loc.chunk - 1 →
      (removeAt (migrateMid s s1 aiD a2) loc.arch loc.chunk loc.slot).entityAt
        loc.arch loc.chunk j = s.entityAt loc.arch loc.chunk j := by
    intro j h1 h2
    rw [hDother j h1 (by rw [hcnt2]; exact h2),
      hI11 loc.arch loc.chunk j (fun hc => hpairne ⟨hc.1, hc.2.1⟩)]
  have hGdest : (removeAt (migrateMid s s1 aiD a2) loc.arch loc.chunk loc.slot).entityAt
      aiD ciD slD = some r.id := by
    rw [hDoff aiD ciD slD hpairne2]
    exact hI9
  have hGoff : ∀ ai2 ci2 j, ¬(ai2 = loc.arch ∧ ci2 = loc.chunk) →
      ¬(ai2 = aiD ∧ ci2 = ciD ∧ j = slD) →
      (removeAt (migrateMid s s1 aiD a2) loc.arch loc.chunk loc.slot).entityAt ai2 ci2 j =
        s.entityAt ai2 ci2 j := by
    intro ai2 ci2 j h1 h2
    rw [hDoff ai2 ci2 j h1]
    exact hI11 ai2 ci2 j h2
  have hGval_dest : ∀ k, k < newSig.length →
      (removeAt (migrateMid s s1 aiD a2) loc.arch loc.chunk loc.slot).valueAt
        aiD ciD k slD = some (vals.getD k 0) := by
    intro k hk
    rw [hDval aiD ciD k slD hpairne2]
    exact hI10 k hk
  have hGsig_dest : (removeAt (migrateMid s s1 aiD a2) loc.arch loc.chunk
      loc.slot).sigAt aiD = newSig := by
    rw [hDsig aiD]
    exact hI4
  have hGlen : aiD < (removeAt (migrateMid s s1 aiD a2) loc.arch loc.chunk
      loc.slot).archetypes.length := by
    rw [hDlen]
    exact hI2
  have hdestNone : s.entityAt aiD ciD slD = none :=
    entityAt_none_of_count_le hphysOld aiD ciD slD (Nat.le_of_eq hI6.symm)
  have hIntNe : ((r.id : Int)) ≠ MIN_VALUE := by
    simp only [MIN_VALUE]
    omega
  have hscrut : (migrateMid s s1 aiD a2).entityAt loc.arch loc.chunk
      ((migrateMid s s1 aiD a2).chunkCount loc.arch loc.chunk - 1) = some m := by
    rw [hcnt2, hI11 loc.arch loc.chunk _ (fun hc => hpairne ⟨hc.1, hc.2.1⟩)]
    exact hm
  by_cases hcase : loc.slot = (migrateMid s s1 aiD a2).chunkCount loc.arch loc.chunk - 1
  · rw [if_pos hcase]
    rw [hcnt2] at hcase
    have hmr : r.id = m := by
      rw [hcase] at hrent
      rw [hrent] at hm
      exact Option.some_injective _ hm
    refine ⟨?_, rfl, ⟨EntityLoc.mk aiD ciD slD, ?_, hGsig_dest, hGlen, hGval_dest⟩, rfl, rfl⟩
    swap
    · show ((s.locs.set r.id (some (EntityLoc.mk aiD ciD slD))).getD r.id none) = _
      rw [getD_set_self _ _ _ _ (by omega)]
    refine ⟨physWF_congr
      (t := removeAt (migrateMid s s1 aiD a2) loc.arch loc.chunk loc.slot) rfl rfl hP3,
      ?_, ?_, hrefsVal, ?_, ?_, ?_⟩
    · exact hrefsLen
    · show (s.locs.set r.id (some (EntityLoc.mk aiD ciD slD))).length = s.nextId
      rw [List.length_set]
      exact hlocsLen
    · intro i
      show s.refs.getD i MIN_VALUE ≠ MIN_VALUE ↔
        (((s.locs.set r.id (some (EntityLoc.mk aiD ciD slD))).getD i none)).isSome = true
      by_cases hi : i = r.id
      · rw [hi, getD_set_self _ _ _ _ (by omega)]
        constructor
        · intro _
          rfl
        · intro _
          rw [show s.refs.getD r.id MIN_VALUE = ((r.id : Int)) from hridx]
          exact hIntNe
      · rw [getD_set_ne _ _ _ _ _ (fun hc => hi hc.symm)]
        exact hrefsLoc i
    · intro e loc2 h
      show loc2.slot < (removeAt (migrateMid s s1 aiD a2) loc.arch loc.chunk
          loc.slot).chunkCount loc2.arch loc2.chunk ∧
        (removeAt (migrateMid s s1 aiD a2) loc.arch loc.chunk loc.slot).entityAt
          loc2.arch loc2.chunk loc2.slot = some e
      by_cases he : e = r.id
      · rw [he] at h
        rw [show ((s.locs.set r.id (some (EntityLoc.mk aiD ciD slD))).getD r.id none) =
          some (EntityLoc.mk aiD ciD slD) from getD_set_self _ _ _ _ (by omega)] at h
        have hloc2 : loc2 = EntityLoc.mk aiD ciD slD := (Option.some_injective _ h).symm
        rw [hloc2]
        exact ⟨Nat.lt_of_lt_of_le (Nat.lt_succ_self slD) (Nat.le_of_eq hGcnt_dest.symm),
          by rw [he]; exact hGdest⟩
      · rw [show ((s.locs.set r.id (some (EntityLoc.mk aiD ciD slD))).getD e none) =
          s.locs.getD e none from getD_set_ne _ _ _ _ _ (fun hc => he hc.symm)] at h
        obtain ⟨h1, h2⟩ := hlocSound e loc2 h
        by_cases hp1 : loc2.arch = loc.arch ∧ loc2.chunk = loc.chunk
        · have hne_last : loc2.slot ≠ s.chunkCount loc.arch loc.chunk - 1 := by
            intro hc
            rw [hp1.1, hp1.2, hc, hm] at h2
            exact he ((Option.some_injective _ h2).symm.trans hmr.symm)
          have hne_sl : loc2.slot ≠ loc.slot := by
            rw [hcase]
            exact hne_last
          constructor
          · rw [hp1.1, hp1.2, hGcnt_src]
            rw [hp1.1, hp1.2] at h1
            omega
          · rw [hp1.1, hp1.2, hGother_src loc2.slot hne_sl hne_last]
            rw [hp1.1, hp1.2] at h2
            exact h2
        · by_cases hp2 : loc2.arch = aiD ∧ loc2.chunk = ciD
          · have hne_slD : loc2.slot ≠ slD := by
              intro hc
              rw [hp2.1, hp2.2, hc, hdestNone] at h2
              exact Option.noConfusion h2
            constructor
            · rw [hp2.1, hp2.2, hGcnt_dest]
              rw [hp2.1, hp2.2] at h1
              omega
            · rw [hp2.1, hp2.2,
                hGoff aiD ciD loc2.slot (fun hc => hne_arch hc.1)
                  (fun hc => hne_slD hc.2.2)]
              rw [hp2.1, hp2.2] at h2
              exact h2
          · constructor
            · rw [hGcnt_other loc2.arch loc2.chunk hp1 hp2]
              exact h1
            · rw [hGoff loc2.arch loc2.chunk loc2.slot hp1
                (fun hc => hp2 ⟨hc.1, hc.2.1⟩)]
              exact h2
    · intro ai2 ci2 j e h
      replace h : (removeAt (migrateMid s s1 aiD a2) loc.arch loc.chunk
          loc.slot).entityAt ai2 ci2 j = some e := h
      by_cases h1 : ai2 = aiD ∧ ci2 = ciD ∧ j = slD
      · rw [h1.1, h1.2.1, h1.2.2] at h
        rw [hGdest] at h
        have he : e = r.id := Option.some_injective _ h.symm
        rw [he]
        show ((s.locs.set r.id (some (EntityLoc.mk aiD ciD slD))).getD r.id none) = _
        rw [getD_set_self _ _ _ _ (by omega), h1.1, h1.2.1, h1.2.2]
      · by_cases h2 : ai2 = loc.arch ∧ ci2 = loc.chunk
        · by_cases hj : j = s.chunkCount loc.arch loc.chunk - 1
          · rw [h2.1, h2.2, hj, hGlast] at h
            exact Option.noConfusion h
          · have hjsl : j ≠ loc.slot := by
              rw [hcase]
              exact hj
            rw [h2.1, h2.2, hGother_src j hjsl hj] at h
            have h4 := hslotSound loc.arch loc.chunk j e h
            have he : e ≠ r.id := by
              intro hc
              rw [hc, hrloc] at h4
              have h5 : loc = EntityLoc.mk loc.arch loc.chunk j :=
                Option.some_injective _ h4
              have h6 : loc.slot = j := by rw [h5]
              exact hjsl (h6.symm ▸ rfl)
            show ((s.locs.set r.id (some (EntityLoc.mk aiD ciD slD))).getD e none) = _
            rw [getD_set_ne _ _ _ _ _ (fun hc => he hc.symm), h2.1, h2.2]
            exact h4
        · rw [hGoff ai2 ci2 j h2 h1] at h
          have h4 := hslotSound ai2 ci2 j e h
          have he : e ≠ r.id := by
            intro hc
            rw [hc, hrloc] at h4
            have h5 : loc = EntityLoc.mk ai2 ci2 j := Option.some_injective _ h4
            exact h2 ⟨(congrArg EntityLoc.arch h5).symm ▸ rfl,
              (congrArg EntityLoc.chunk h5).symm ▸ rfl⟩
          show ((s.locs.set r.id (some (EntityLoc.mk aiD ciD slD))).getD e none) = _
          rw [getD_set_ne _ _ _ _ _ (fun hc => he hc.symm)]
          exact h4
  · rw [if_neg hcase, hscrut,
      show Option.elim (some m) s.locs (fun m2 => s.locs.set m2
        (some (EntityLoc.mk loc.arch loc.chunk loc.slot))) =
        s.locs.set m (some (EntityLoc.mk loc.arch loc.chunk loc.slot)) from rfl]
    rw [hcnt2] at hcase
    have hmr : m ≠ r.id := by
      intro hc
      rw [hc, hrloc] at hmloc
      have h5 : loc = EntityLoc.mk loc.arch loc.chunk
          (s.chunkCount loc.arch loc.chunk - 1) := Option.some_injective _ hmloc
      have h6 : loc.slot = s.chunkCount loc.arch loc.chunk - 1 := by rw [h5]
      exact hcase h6
    have hgetm : (((s.locs.set m (some (EntityLoc.mk loc.arch loc.chunk loc.slot))).set
        r.id (some (EntityLoc.mk aiD ciD slD))).getD m none) =
        some (EntityLoc.mk loc.arch loc.chunk loc.slot) := by
      rw [getD_set_ne _ _ _ _ _ (fun hc => hmr hc.symm),
        getD_set_self _ _ _ _ (by omega)]
    have hgetr : (((s.locs.set m (some (EntityLoc.mk loc.arch loc.chunk loc.slot))).set
        r.id (some (EntityLoc.mk aiD ciD slD))).getD r.id none) =
        some (EntityLoc.mk aiD ciD slD) := by
      rw [getD_set_self _ _ _ _ (by rw [List.length_set]; omega)]
    have hgeto : ∀ e, e ≠ m → e ≠ r.id →
        (((s.locs.set m (some (EntityLoc.mk loc.arch loc.chunk loc.slot))).set
          r.id (some (EntityLoc.mk aiD ciD slD))).getD e none) = s.locs.getD e none := by
      intro e2 h1 h2
      rw [getD_set_ne _ _ _ _ _ (fun hc => h2 hc.symm),
        getD_set_ne _ _ _ _ _ (fun hc => h1 hc.symm)]
    refine ⟨?_, rfl, ⟨EntityLoc.mk aiD ciD slD, hgetr, hGsig_dest, hGlen, hGval_dest⟩,
      rfl, rfl⟩
    refine ⟨physWF_congr
      (t := removeAt (migrateMid s s1 aiD a2) loc.arch loc.chunk loc.slot) rfl rfl hP3,
      hrefsLen, ?_, hrefsVal, ?_, ?_, ?_⟩
    · show ((s.locs.set m (some (EntityLoc.mk loc.arch loc.chunk loc.slot))).set
        r.id (some (EntityLoc.mk aiD ciD slD))).length = s.nextId
      rw [List.length_set, List.length_set]
      exact hlocsLen
    · intro i
      by_cases hi : i = r.id
      · rw [hi]
        show s.refs.getD r.id MIN_VALUE ≠ MIN_VALUE ↔ _
        rw [hgetr]
        constructor
        · intro _
          rfl
        · intro _
          rw [show s.refs.getD r.id MIN_VALUE = ((r.id : Int)) from hridx]
          exact hIntNe
      · by_cases him : i = m
        · rw [him]
          show s.refs.getD m MIN_VALUE ≠ MIN_VALUE ↔ _
          rw [hgetm]
          constructor
          · intro _
            rfl
          · intro _
            exact (hrefsLoc m).mpr (by rw [hmloc]; rfl)
        · show s.refs.getD i MIN_VALUE ≠ MIN_VALUE ↔ _
          rw [hgeto i him hi]
          exact hrefsLoc i
    · intro e loc2 h
      show loc2.slot < (removeAt (migrateMid s s1 aiD a2) loc.arch loc.chunk
          loc.slot).chunkCount loc2.arch loc2.chunk ∧
        (removeAt (migrateMid s s1 aiD a2) loc.arch loc.chunk loc.slot).entityAt
          loc2.arch loc2.chunk loc2.slot = some e
      by_cases he : e = r.id
      · rw [he, hgetr] at h
        have hloc2 : loc2 = EntityLoc.mk aiD ciD slD := (Option.some_injective _ h).symm
        rw [hloc2]
        exact ⟨Nat.lt_of_lt_of_le (Nat.lt_succ_self slD) (Nat.le_of_eq hGcnt_dest.symm),
          by rw [he]; exact hGdest⟩
      · by_cases hem : e = m
        · rw [hem, hgetm] at h
          have hloc2 : loc2 = EntityLoc.mk loc.arch loc.chunk loc.slot :=
            (Option.some_injective _ h).symm
          rw [hloc2, hem]
          constructor
          · show loc.slot < (removeAt (migrateMid s s1 aiD a2) loc.arch loc.chunk
              loc.slot).chunkCount loc.arch loc.chunk
            rw [hGcnt_src]
            omega
          · exact hGmove hcase
        · rw [hgeto e hem he] at h
          obtain ⟨h1, h2⟩ := hlocSound e loc2 h
          by_cases hp1 : loc2.arch = loc.arch ∧ loc2.chunk = loc.chunk
          · have hne_last : loc2.slot ≠ s.chunkCount loc.arch loc.chunk - 1 := by
              intro hc
              rw [hp1.1, hp1.2, hc, hm] at h2
              exact hem (Option.some_injective _ h2.symm)
            have hne_sl : loc2.slot ≠ loc.slot := by
              intro hc
              rw [hp1.1, hp1.2, hc, hrent] at h2
              exact he (Option.some_injective _ h2.symm)
            constructor
            · rw [hp1.1, hp1.2, hGcnt_src]
              rw [hp1.1, hp1.2] at h1
              omega
            · rw [hp1.1, hp1.2, hGother_src loc2.slot hne_sl hne_last]
              rw [hp1.1, hp1.2] at h2
              exact h2
          · by_cases hp2 : loc2.arch = aiD ∧ loc2.chunk = ciD
            · have hne_slD : loc2.slot ≠ slD := by
                intro hc
                rw [hp2.1, hp2.2, hc, hdestNone] at h2
                exact Option.noConfusion h2
              constructor
              · rw [hp2.1, hp2.2, hGcnt_dest]
                rw [hp2.1, hp2.2] at h1
                omega
              · rw [hp2.1, hp2.2,
                  hGoff aiD ciD loc2.slot (fun hc => hne_arch hc.1)
                    (fun hc => hne_slD hc.2.2)]
                rw [hp2.1, hp2.2] at h2
                exact h2
            · constructor
              · rw [hGcnt_other loc2.arch loc2.chunk hp1 hp2]
                exact h1
              · rw [hGoff loc2.arch loc2.chunk loc2.slot hp1
                  (fun hc => hp2 ⟨hc.1, hc.2.1⟩)]
                exact h2
    · intro ai2 ci2 j e h
      replace h : (removeAt (migrateMid s s1 aiD a2) loc.arch loc.chunk
          loc.slot).entityAt ai2 ci2 j = some e := h
      by_cases h1 : ai2 = aiD ∧ ci2 = ciD ∧ j = slD
      · rw [h1.1, h1.2.1, h1.2.2, hGdest] at h
        have he : e = r.id := Option.some_injective _ h.symm
        rw [he, hgetr, h1.1, h1.2.1, h1.2.2]
      · by_cases h2 : ai2 = loc.arch ∧ ci2 = loc.chunk
        · by_cases hj : j = s.chunkCount loc.arch loc.chunk - 1
          · rw [h2.1, h2.2, hj, hGlast] at h
            exact Option.noConfusion h
          · by_cases hjsl : j = loc.slot
            · rw [h2.1, h2.2, hjsl, hGmove hcase] at h
              have he : e = m := Option.some_injective _ h.symm
              rw [he, hgetm, h2.1, h2.2, hjsl]
            · rw [h2.1, h2.2, hGother_src j hjsl hj] at h
              have h4 := hslotSound loc.arch loc.chunk j e h
              have he : e ≠ r.id := by
                intro hc
                rw [hc, hrloc] at h4
                have h5 : loc = EntityLoc.mk loc.arch loc.chunk j :=
                  Option.some_injective _ h4
                have h6 : loc.slot = j := by rw [h5]
                exact hjsl h6.symm
              have hem : e ≠ m := by
                intro hc
                rw [hc, hmloc] at h4
                have h5 : EntityLoc.mk loc.arch loc.chunk
                    (s.chunkCount loc.arch loc.chunk - 1) =
                    EntityLoc.mk loc.arch loc.chunk j := Option.some_injective _ h4
                exact hj (congrArg EntityLoc.slot h5).symm
              rw [hgeto e hem he, h2.1, h2.2]
              exact h4
        · rw [hGoff ai2 ci2 j h2 h1] at h
          have h4 := hslotSound ai2 ci2 j e h
          have he : e ≠ r.id := by
            intro hc
            rw [hc, hrloc] at h4
            have h5 : loc = EntityLoc.mk ai2 ci2 j := Option.some_injective _ h4
            have h6 : loc.arch = ai2 := by rw [h5]
            have h7 : loc.chunk = ci2 := by rw [h5]
            exact h2 ⟨h6.symm, h7.symm⟩
          have hem : e ≠ m := by
            intro hc
            rw [hc, hmloc] at h4
            have h5 : EntityLoc.mk loc.arch loc.chunk
                (s.chunkCount loc.arch loc.chunk - 1) =
                EntityLoc.mk ai2 ci2 j := Option.some_injective _ h4
            exact h2 ⟨(congrArg EntityLoc.arch h5).symm,
              (congrArg EntityLoc.chunk h5).symm⟩
          rw [hgeto e hem he]
          exact h4

theorem findIdxP_eq_none {α : Type} (p : α → Bool) (l : List α)
    (h : ∀ x ∈ l, p x = false) : findIdxP p l = none := by
  induction l with
  | nil => rfl
  | cons y ys ih =>
    have hy := h y (List.mem_cons_self _ _)
    simp [findIdxP, hy, ih (fun x hx => h x (List.mem_cons_of_mem _ hx))]

theorem ColWF.overwrite {α : Type} {cap count : Nat} {col : List (Option α)}
    (h : ColWF cap count col) (j : Nat) (hj : j < count) (hcap : count ≤ cap) (v : α) :
    ColWF cap count (col.set j (some v)) := by
  obtain ⟨hlen, hlo, hhi⟩ := h
  refine ⟨by simpa using hlen, ?_, ?_⟩
  · intro i hi
    by_cases hij : i = j
    · rw [hij, getD_set_self _ _ _ _ (by omega)]
      rfl
    · rw [getD_set_ne _ _ _ _ _ (fun hc => hij hc.symm)]
      exact hlo i hi
  · intro i hi
    rw [getD_set_ne _ _ _ _ _ (by omega)]
    exact hhi i hi

theorem readAt_eq (s : Store) (loc : EntityLoc) (t : TypeId) :
    s.readAt loc t = (findIdxP (fun u => decide (u = t)) (s.sigAt loc.arch)).bind
      (fun k => s.valueAt loc.arch loc.chunk k loc.slot) := rfl

theorem readAt_not_mem {s : Store} {loc : EntityLoc} {t : TypeId}
    (h : t ∉ s.sigAt loc.arch) : s.readAt loc t = none := by
  rw [readAt_eq, findIdxP_eq_none _ _ (fun x hx => by
    by_cases hxt : x = t
    · exact absurd (hxt ▸ hx) h
    · simp [hxt])]
  rfl

theorem readAt_mem_some {s : Store} (hwf : StoreWF s) {r : Ref} {loc : EntityLoc}
    (hres : s.resolve r = some loc) {t : TypeId} (hmem : t ∈ s.sigAt loc.arch) :
    ∃ w, s.readAt loc t = some w := by
  obtain ⟨hridx, hrloc, hslt, hrent⟩ := resolve_some_spec hwf hres
  obtain ⟨hailt, hcilt⟩ := chunkCount_pos_ranges (Nat.lt_of_le_of_lt (Nat.zero_le _) hslt)
  rcases findIdxP_mem_some (fun u => decide (u = t)) _ t hmem (by simp) with ⟨k, hk⟩
  rcases findIdxP_some _ _ _ 0 hk with ⟨hklt, _, _⟩
  have hcw := hwf.phys.chunksWF loc.arch loc.chunk hailt hcilt
  have hcol := hcw.2.2.2 k hklt
  have hval := hcol.2.1 loc.slot hslt
  rcases Option.isSome_iff_exists.mp hval with ⟨w, hw⟩
  refine ⟨w, ?_⟩
  rw [readAt_eq, hk]
  exact hw

theorem getComponent_eq_readAt {s : Store} {r : Ref} {loc : EntityLoc}
    (hres : s.resolve r = some loc) (t : TypeId) :
    s.getComponent r t = s.readAt loc t := by
  rw [Store.getComponent, hres]
  rfl

theorem overwrite_phys {s T : Store} {ai ci sl k : Nat} (v : Val)
    (hphys : PhysWF s)
    (hsl : sl < s.chunkCount ai ci)
    (hk : k < (s.sigAt ai).length)
    (hTcap : T.cap = s.cap)
    (hTarch : T.archetypes = s.archetypes.set ai
      { s.archetypes.getD ai emptyArch with
        chunks := (s.archetypes.getD ai emptyArch).chunks.set ci
          { (s.archetypes.getD ai emptyArch).chunks.getD ci
              (emptyChunk s.cap (s.archetypes.getD ai emptyArch).sig.length) with
            cols := ((s.archetypes.getD ai emptyArch).chunks.getD ci
              (emptyChunk s.cap (s.archetypes.getD ai emptyArch).sig.length)).cols.set k
              ((((s.archetypes.getD ai emptyArch).chunks.getD ci
                (emptyChunk s.cap
                  (s.archetypes.getD ai emptyArch).sig.length)).cols.getD k []).set sl
                (some v)) } }) :
    PhysWF T ∧
    T.archetypes.length = s.archetypes.length ∧
    (∀ j, T.sigAt j = s.sigAt j) ∧
    (∀ ai2 ci2, T.chunkCount ai2 ci2 = s.chunkCount ai2 ci2) ∧
    (∀ ai2 ci2 j, T.entityAt ai2 ci2 j = s.entityAt ai2 ci2 j) := by
  obtain ⟨hcapP, hsorted, hnodup, hsigs, hchunks⟩ := hphys
  obtain ⟨hailt, hcilt⟩ := chunkCount_pos_ranges (Nat.lt_of_le_of_lt (Nat.zero_le _) hsl)
  obtain ⟨hcW1, hcW2, hcW3, hcW4⟩ := hchunks ai ci hailt hcilt
  have hchunkAt : (s.archetypes.getD ai emptyArch).chunks.getD ci
      (emptyChunk s.cap (s.archetypes.getD ai emptyArch).sig.length) =
      s.chunkAt ai ci := rfl
  rw [hchunkAt] at hTarch
  have hTlen : T.archetypes.length = s.archetypes.length := by
    rw [hTarch]; exact List.length_set _ _ _
  have hTai : T.archetypes.getD ai emptyArch =
      { s.archetypes.getD ai emptyArch with
        chunks := (s.archetypes.getD ai emptyArch).chunks.set ci
          { s.chunkAt ai ci with
            cols := (s.chunkAt ai ci).cols.set k
              (((s.chunkAt ai ci).cols.getD k []).set sl (some v)) } } := by
    rw [hTarch]
    exact getD_set_self _ _ _ _ hailt
  have hTother : ∀ j, j ≠ ai →
      T.archetypes.getD j emptyArch = s.archetypes.getD j emptyArch := by
    intro j hj
    rw [hTarch]
    exact getD_set_ne _ _ _ _ _ (fun hc => hj hc.symm)
  have hsigT : ∀ j, T.sigAt j = s.sigAt j := by
    intro j
    by_cases hj : j = ai
    · rw [hj]
      show (T.archetypes.getD ai emptyArch).sig = _
      rw [hTai]
      rfl
    · show (T.archetypes.getD j emptyArch).sig = _
      rw [hTother j hj]
      rfl
  have hTchunk_ci : T.chunkAt ai ci =
      { s.chunkAt ai ci with
        cols := (s.chunkAt ai ci).cols.set k
          (((s.chunkAt ai ci).cols.getD k []).set sl (some v)) } := by
    show (T.archAt ai).chunks.getD ci (emptyChunk T.cap (T.sigAt ai).length) = _
    rw [show T.archAt ai = _ from hTai, hTcap, hsigT ai]
    show ((s.archetypes.getD ai emptyArch).chunks.set ci _).getD ci
      (emptyChunk s.cap (s.sigAt ai).length) = _
    exact getD_set_self _ _ _ _ hcilt
  have hTchunk_ne : ∀ ci2, ci2 ≠ ci → T.chunkAt ai ci2 = s.chunkAt ai ci2 := by
    intro ci2 hci2
    show (T.archAt ai).chunks.getD ci2 (emptyChunk T.cap (T.sigAt ai).length) = _
    rw [show T.archAt ai = _ from hTai, hTcap, hsigT ai]
    show ((s.archetypes.getD ai emptyArch).chunks.set ci _).getD ci2
      (emptyChunk s.cap (s.sigAt ai).length) = _
    rw [getD_set_ne _ _ _ _ _ (fun hc => hci2 hc.symm)]
    rfl
  have hslcnt : sl < (s.chunkAt ai ci).count := hsl
  have hC2WF : ChunkWF s.cap (s.sigAt ai).length
      { s.chunkAt ai ci with
        cols := (s.chunkAt ai ci).cols.set k
          (((s.chunkAt ai ci).cols.getD k []).set sl (some v)) } := by
    refine ⟨by simpa using hcW1, hcW2, hcW3, ?_⟩
    intro k2 hk2
    show ColWF s.cap (s.chunkAt ai ci).count
      (((s.chunkAt ai ci).cols.set k
        (((s.chunkAt ai ci).cols.getD k []).set sl (some v))).getD k2 [])
    by_cases hkk : k2 = k
    · rw [hkk, getD_set_self _ _ _ _ (by rw [hcW1]; exact hk)]
      exact ColWF.overwrite (hcW4 k hk) sl hslcnt hcW2 v
    · rw [getD_set_ne _ _ _ _ _ (fun hc => hkk hc.symm)]
      exact hcW4 k2 hk2
  refine ⟨?_, hTlen, hsigT, ?_, ?_⟩
  · refine ⟨by rw [hTcap]; exact hcapP, ?_, ?_, ?_, ?_⟩
    · intro j hj
      rw [hsigT j]
      exact hsorted j (by omega)
    · intro j hj
      rw [hsigT j]
      exact hnodup j (by omega)
    · have h1 : ({ s.archetypes.getD ai emptyArch with
          chunks := (s.archetypes.getD ai emptyArch).chunks.set ci
            { s.chunkAt ai ci with
              cols := (s.chunkAt ai ci).cols.set k
                (((s.chunkAt ai ci).cols.getD k []).set sl (some v)) } } :
          Archetype).sig = (s.archetypes.map Archetype.sig).getD ai [] := by
        rw [getD_map Archetype.sig _ _ emptyArch _ hailt]
      have hmapT : T.archetypes.map Archetype.sig = s.archetypes.map Archetype.sig := by
        rw [hTarch, map_set_comm]
        rw [show ({ s.archetypes.getD ai emptyArch with
          chunks := (s.archetypes.getD ai emptyArch).chunks.set ci
            { s.chunkAt ai ci with
              cols := (s.chunkAt ai ci).cols.set k
                (((s.chunkAt ai ci).cols.getD k []).set sl (some v)) } } :
          Archetype).sig = (s.archetypes.map Archetype.sig).getD ai [] from h1]
        exact set_getD_self _ _ _
      rw [hmapT]
      exact hsigs
    · intro j ci2 hj hci2
      by_cases hjai : j = ai
      · rw [hjai] at hci2 ⊢
        rw [hTcap, hsigT ai]
        by_cases hc : ci2 = ci
        · rw [hc, hTchunk_ci]
          exact hC2WF
        · rw [hTchunk_ne ci2 hc]
          have h2 : (T.archAt ai).chunks.length = (s.archAt ai).chunks.length := by
            show (T.archetypes.getD ai emptyArch).chunks.length = _
            rw [hTai]
            show ((s.archetypes.getD ai emptyArch).chunks.set ci _).length = _
            rw [List.length_set]
            rfl
          exact hchunks ai ci2 hailt (by omega)
      · have hacc := accessors_eq_of_archAt hTcap (hTother j hjai)
        have hX : (T.archAt j).chunks.length = (s.archAt j).chunks.length := by
          show (T.archetypes.getD j emptyArch).chunks.length = _
          rw [hTother j hjai]
          rfl
        rw [hTcap, hacc.1, hacc.2.1 ci2]
        rw [hX] at hci2
        exact hchunks j ci2 (by omega) hci2
  · intro ai2 ci2
    by_cases hai2 : ai2 = ai
    · rw [hai2]
      by_cases hc : ci2 = ci
      · rw [hc]
        show (T.chunkAt ai ci).count = _
        rw [hTchunk_ci]
        rfl
      · show (T.chunkAt ai ci2).count = _
        rw [hTchunk_ne ci2 hc]
        rfl
    · exact (accessors_eq_of_archAt hTcap (hTother ai2 hai2)).2.2.2.2 ci2
  · intro ai2 ci2 j
    by_cases hai2 : ai2 = ai
    · rw [hai2]
      by_cases hc : ci2 = ci
      · rw [hc]
        show (T.chunkAt ai ci).entities.getD j none = _
        rw [hTchunk_ci]
        rfl
      · show (T.chunkAt ai ci2).entities.getD j none = _
        rw [hTchunk_ne ci2 hc]
        rfl
    · exact (accessors_eq_of_archAt hTcap (hTother ai2 hai2)).2.2.1 ci2 j

theorem wf_applyAddComponent {s : Store} (hwf : StoreWF s) (r : Ref) (t : TypeId)
    (v : Val) : StoreWF (s.applyAddComponent r t v) := by
  cases hres : s.resolve r with
  | none =>
    simp only [Store.applyAddComponent, hres]
    exact hwf
  | some loc =>
    obtain ⟨hridx, hrloc, hslt, hrent⟩ := resolve_some_spec hwf hres
    by_cases hmem : t ∈ (s.archetypes.getD loc.arch emptyArch).sig
    · simp only [Store.applyAddComponent, hres, if_pos hmem]
      cases hk : findIdxP (fun u => decide (u = t))
          (s.archetypes.getD loc.arch emptyArch).sig with
      | none => exact hwf
      | some k =>
        rcases findIdxP_some _ _ _ 0 hk with ⟨hklt, _, _⟩
        obtain ⟨hP, hTlen, hsigT, hcntT, hentT⟩ :=
          overwrite_phys (T := { s with
            archetypes := s.archetypes.set loc.arch
              { s.archetypes.getD loc.arch emptyArch with
                chunks := (s.archetypes.getD loc.arch emptyArch).chunks.set loc.chunk
                  { (s.archetypes.getD loc.arch emptyArch).chunks.getD loc.chunk
                      (emptyChunk s.cap
                        (s.archetypes.getD loc.arch emptyArch).sig.length) with
                    cols := ((s.archetypes.getD loc.arch emptyArch).chunks.getD loc.chunk
                      (emptyChunk s.cap
                        (s.archetypes.getD loc.arch
                          emptyArch).sig.length)).cols.set k
                      ((((s.archetypes.getD loc.arch emptyArch).chunks.getD loc.chunk
                        (emptyChunk s.cap
                          (s.archetypes.getD loc.arch
                            emptyArch).sig.length)).cols.getD k []).set loc.slot
                        (some v)) } } })
            v hwf.phys hslt hklt rfl rfl
        refine ⟨hP, hwf.refsLen, hwf.locsLen, hwf.refsVal, hwf.refsLoc, ?_, ?_⟩
        · intro e loc2 h
          have h2 := hwf.locSound e loc2 h
          rw [hcntT loc2.arch loc2.chunk, hentT loc2.arch loc2.chunk loc2.slot]
          exact h2
        · intro ai2 ci2 j e h
          rw [hentT ai2 ci2 j] at h
          exact hwf.slotSound ai2 ci2 j e h
    · have hnodupSig : ((s.archetypes.getD loc.arch emptyArch).sig).Nodup :=
        hwf.phys.archNodup loc.arch
          (chunkCount_pos_ranges (Nat.lt_of_le_of_lt (Nat.zero_le _) hslt)).1
      simp only [Store.applyAddComponent, hres, if_neg hmem]
      refine (migrate_spec hwf hres (canon_sorted _) (canon_nodup _) ?_ (by simp)).1
      intro hc
      have h1 : (canon (t :: (s.archetypes.getD loc.arch emptyArch).sig)).length =
          (s.archetypes.getD loc.arch emptyArch).sig.length + 1 := by
        have h2 := (canon_perm (t :: (s.archetypes.getD loc.arch emptyArch).sig)).length_eq
        rw [List.dedup_cons_of_not_mem hmem,
          List.dedup_eq_self.mpr hnodupSig] at h2
        simpa using h2
      have h3 := congrArg List.length hc
      have h4 : s.sigAt loc.arch = (s.archetypes.getD loc.arch emptyArch).sig := rfl
      rw [h1, h4] at h3
      omega

theorem canon_cons_length {t : TypeId} {l : List TypeId} (hn : l.Nodup)
    (hmem : t ∉ l) : (canon (t :: l)).length = l.length + 1 := by
  have h2 := (canon_perm (t :: l)).length_eq
  rw [List.dedup_cons_of_not_mem hmem, List.dedup_eq_self.mpr hn] at h2
  simpa using h2

theorem canon_cons_ne {t : TypeId} {l : List TypeId} (hn : l.Nodup)
    (hmem : t ∉ l) : canon (t :: l) ≠ l := by
  intro hc
  have h3 := congrArg List.length hc
  rw [canon_cons_length hn hmem] at h3
  omega

theorem resolve_eq_of_refs {s S : Store} {r : Ref} (hridx : s.refIndex r = (r.id : Int))
    (hrefs : S.refs = s.refs) {loc2 : EntityLoc}
    (hl : S.locs.getD r.id none = some loc2) : S.resolve r = some loc2 := by
  have hidx : S.refIndex r = (r.id : Int) := by
    show S.refs.getD r.id MIN_VALUE = _
    rw [hrefs]
    exact hridx
  have hne : S.refIndex r ≠ MIN_VALUE := by
    rw [hidx]
    intro hc
    have h0 : (0 : Int) ≤ (r.id : Int) := Int.natCast_nonneg r.id
    rw [hc] at h0
    norm_num [MIN_VALUE] at h0
  simp only [Store.resolve]
  rw [if_neg hne, hidx, Int.toNat_natCast]
  exact hl

theorem migrate_getComponent {s : Store} (hwf : StoreWF s) {r : Ref} {loc : EntityLoc}
    (hres : s.resolve r = some loc)
    {newSig : Signature} (hsortedS : newSig.Sorted (· ≤ ·)) (hnodupS : newSig.Nodup)
    (hdiff : newSig ≠ s.sigAt loc.arch) (f : TypeId → Val) (u : TypeId) :
    (s.migrate r loc newSig (newSig.map f)).getComponent r u =
      if u ∈ newSig then some (f u) else none := by
  obtain ⟨hridx, hrloc, hslt, hrent⟩ := resolve_some_spec hwf hres
  obtain ⟨hWF, hrefs, ⟨loc2, hl, hsig2, halt, hvals⟩, hcap, hnid⟩ :=
    migrate_spec hwf hres hsortedS hnodupS hdiff
      (show (newSig.map f).length = newSig.length by simp)
  have hres2 : (s.migrate r loc newSig (newSig.map f)).resolve r = some loc2 :=
    resolve_eq_of_refs hridx hrefs hl
  rw [getComponent_eq_readAt hres2, readAt_eq, hsig2]
  by_cases hu : u ∈ newSig
  · rcases findIdxP_mem_some (fun x => decide (x = u)) newSig u hu (by simp) with ⟨k, hk⟩
    rcases findIdxP_some _ _ _ 0 hk with ⟨hklt, hpk, _⟩
    have hgk : newSig.getD k 0 = u := by simpa using hpk
    rw [hk]
    show (s.migrate r loc newSig (newSig.map f)).valueAt loc2.arch loc2.chunk k loc2.slot
      = _
    rw [hvals k hklt, getD_map f newSig k 0 0 hklt, hgk, if_pos hu]
  · rw [findIdxP_eq_none _ _ (fun x hx => by
      by_cases hxu : x = u
      · exact absurd (hxu ▸ hx) hu
      · simp [hxu])]
    rw [if_neg hu]
    rfl

theorem applyAddComponent_reads {s : Store} (hwf : StoreWF s) {r : Ref}
    {loc : EntityLoc} (hres : s.resolve r = some loc) {t : TypeId}
    (hmem : t ∉ s.sigAt loc.arch) (v : Val) (u : TypeId) :
    (s.applyAddComponent r t v).getComponent r u =
      if u = t then some v else s.getComponent r u := by
  obtain ⟨hridx, hrloc, hslt, hrent⟩ := resolve_some_spec hwf hres
  have hlt := (chunkCount_pos_ranges (Nat.lt_of_le_of_lt (Nat.zero_le _) hslt)).1
  have hnodup : ((s.archetypes.getD loc.arch emptyArch).sig).Nodup :=
    hwf.phys.archNodup loc.arch hlt
  have hmem' : t ∉ (s.archetypes.getD loc.arch emptyArch).sig := hmem
  have hdiff : canon (t :: (s.archetypes.getD loc.arch emptyArch).sig) ≠
      s.sigAt loc.arch := canon_cons_ne hnodup hmem'
  have heq : s.applyAddComponent r t v =
      s.migrate r loc (canon (t :: (s.archetypes.getD loc.arch emptyArch).sig))
        ((canon (t :: (s.archetypes.getD loc.arch emptyArch).sig)).map
          (fun u2 => if u2 = t then v else (s.readAt loc u2).getD 0)) := by
    simp only [Store.applyAddComponent, hres, if_neg hmem']
  rw [heq, migrate_getComponent hwf hres (canon_sorted _) (canon_nodup _) hdiff
    (fun u2 => if u2 = t then v else (s.readAt loc u2).getD 0) u]
  by_cases hut : u = t
  · rw [hut, if_pos ((mem_canon t _).mpr (List.mem_cons_self t _)), if_pos rfl,
      if_pos rfl]
  · by_cases hus : u ∈ s.sigAt loc.arch
    · have hus' : u ∈ (s.archetypes.getD loc.arch emptyArch).sig := hus
      have hmemc : u ∈ canon (t :: (s.archetypes.getD loc.arch emptyArch).sig) :=
        (mem_canon u _).mpr (List.mem_cons_of_mem _ hus')
      rw [if_pos hmemc, if_neg hut, if_neg hut, getComponent_eq_readAt hres]
      rcases readAt_mem_some hwf hres hus with ⟨w, hw⟩
      simp [hw]
    · have hmemc : u ∉ canon (t :: (s.archetypes.getD loc.arch emptyArch).sig) := by
        intro hc
        rcases List.mem_cons.mp ((mem_canon u _).mp hc) with hc2 | hc2
        · exact hut hc2
        · exact hus hc2
      rw [if_neg hmemc, if_neg hut, getComponent_eq_readAt hres, readAt_not_mem hus]

theorem applyRemoveComponent_reads {s : Store} (hwf : StoreWF s) {r : Ref}
    {loc : EntityLoc} (hres : s.resolve r = some loc) {t : TypeId}
    (hmem : t ∈ s.sigAt loc.arch) (u : TypeId) :
    (s.applyRemoveComponent r t).getComponent r u =
      if u = t then none else s.getComponent r u := by
  obtain ⟨hridx, hrloc, hslt, hrent⟩ := resolve_some_spec hwf hres
  have hlt := (chunkCount_pos_ranges (Nat.lt_of_le_of_lt (Nat.zero_le _) hslt)).1
  have hnodup : ((s.archetypes.getD loc.arch emptyArch).sig).Nodup :=
    hwf.phys.archNodup loc.arch hlt
  have hsorted : ((s.archetypes.getD loc.arch emptyArch).sig).Sorted (· ≤ ·) :=
    hwf.phys.archSorted loc.arch hlt
  have hmem' : t ∈ (s.archetypes.getD loc.arch emptyArch).sig := hmem
  have hdiff : (s.archetypes.getD loc.arch emptyArch).sig.erase t ≠
      s.sigAt loc.arch := by
    intro hc
    have h3 := congrArg List.length hc
    rw [List.length_erase_of_mem hmem'] at h3
    have h4 : s.sigAt loc.arch = (s.archetypes.getD loc.arch emptyArch).sig := rfl
    rw [h4] at h3
    have h5 : 0 < (s.archetypes.getD loc.arch emptyArch).sig.length :=
      List.length_pos_of_mem hmem'
    omega
  have heq : s.applyRemoveComponent r t =
      s.migrate r loc ((s.archetypes.getD loc.arch emptyArch).sig.erase t)
        (((s.archetypes.getD loc.arch emptyArch).sig.erase t).map
          (fun u2 => (s.readAt loc u2).getD 0)) := by
    simp only [Store.applyRemoveComponent, hres, if_pos hmem']
  rw [heq, migrate_getComponent hwf hres
    (List.Pairwise.sublist (List.erase_sublist _ _) hsorted)
    (List.Nodup.sublist (List.erase_sublist _ _) hnodup) hdiff
    (fun u2 => (s.readAt loc u2).getD 0) u]
  by_cases hut : u = t
  · rw [hut, if_neg (List.Nodup.not_mem_erase hnodup), if_pos rfl]
  · by_cases hus : u ∈ s.sigAt loc.arch
    · have hus' : u ∈ (s.archetypes.getD loc.arch emptyArch).sig := hus
      have humem : u ∈ (s.archetypes.getD loc.arch emptyArch).sig.erase t :=
        (List.mem_erase_of_ne hut).mpr hus'
      rw [if_pos humem, if_neg hut, getComponent_eq_readAt hres]
      rcases readAt_mem_some hwf hres hus with ⟨w, hw⟩
      show some ((s.readAt loc u).getD 0) = s.readAt loc u
      rw [hw]
      rfl
    · have humem : u ∉ (s.archetypes.getD loc.arch emptyArch).sig.erase t :=
        fun hc => hus (List.mem_of_mem_erase hc)
      rw [if_neg humem, if_neg hut, getComponent_eq_readAt hres, readAt_not_mem hus]

theorem wf_applyRemoveComponent {s : Store} (hwf : StoreWF s) (r : Ref) (t : TypeId) :
    StoreWF (s.applyRemoveComponent r t) := by
  cases hres : s.resolve r with
  | none =>
    simp only [Store.applyRemoveComponent, hres]
    exact hwf
  | some loc =>
    obtain ⟨hridx, hrloc, hslt, hrent⟩ := resolve_some_spec hwf hres
    have hlt := (chunkCount_pos_ranges (Nat.lt_of_le_of_lt (Nat.zero_le _) hslt)).1
    have hnodup : ((s.archetypes.getD loc.arch emptyArch).sig).Nodup :=
      hwf.phys.archNodup loc.arch hlt
    have hsorted : ((s.archetypes.getD loc.arch emptyArch).sig).Sorted (· ≤ ·) :=
      hwf.phys.archSorted loc.arch hlt
    by_cases hmem : t ∈ (s.archetypes.getD loc.arch emptyArch).sig
    · simp only [Store.applyRemoveComponent, hres, if_pos hmem]
      refine (migrate_spec hwf hres
        (List.Pairwise.sublist (List.erase_sublist _ _) hsorted)
        (List.Nodup.sublist (List.erase_sublist _ _) hnodup) ?_ (by simp)).1
      intro hc
      have h3 := congrArg List.length hc
      rw [List.length_erase_of_mem hmem] at h3
      have h4 : s.sigAt loc.arch = (s.archetypes.getD loc.arch emptyArch).sig := rfl
      rw [h4] at h3
      have h5 : 0 < (s.archetypes.getD loc.arch emptyArch).sig.length :=
        List.length_pos_of_mem hmem
      omega
    · simp only [Store.applyRemoveComponent, hres, if_neg hmem]
      exact hwf

theorem wf_applyCmd {s : Store} (hwf : StoreWF s) (c : Cmd) :
    StoreWF (s.applyCmd c) := by
  cases c with
  | addEntity tm => exact wf_spawn hwf tm
  | removeEntity r => exact wf_despawn hwf r
  | addComponent r t v => exact wf_applyAddComponent hwf r t v
  | removeComponent r t => exact wf_applyRemoveComponent hwf r t

theorem wf_foldl {s : Store} (hwf : StoreWF s) (cmds : List Cmd) :
    StoreWF (cmds.foldl Store.applyCmd s) := by
  induction cmds generalizing s with
  | nil => exact hwf
  | cons c cs ih => exact ih (wf_applyCmd hwf c)

theorem wf_reach (cap : Nat) (h : 0 < cap) (cmds : List Cmd) :
    StoreWF (cmds.foldl Store.applyCmd (Store.init cap)) :=
  wf_foldl (wf_init cap h) cmds

theorem spawn_newEntity {s : Store} (hwf : StoreWF s) (tm : Template) :
    ∃ ai ci sl,
      (s.spawn tm).locs.getD s.nextId none = some (EntityLoc.mk ai ci sl) ∧
      ai < (s.spawn tm).archetypes.length ∧
      (s.spawn tm).sigAt ai = canon (tm.map Prod.fst) ∧
      (s.spawn tm).nextId = s.nextId + 1 ∧
      s.archetypes.length ≤ (s.spawn tm).archetypes.length ∧
      (∀ e, e ≠ s.nextId → (s.spawn tm).locs.getD e none = s.locs.getD e none) ∧
      (∀ j, j ≠ ai → (s.spawn tm).sigAt j = s.sigAt j) := by
  obtain ⟨hphys, hrefsLen, hlocsLen, hrefsVal, hrefsLoc, hlocSound, hslotSound⟩ := hwf
  rcases hA : s.archetypeFor (canon (tm.map Prod.fst)) with ⟨ai, s1⟩
  rcases hB : (s1.archetypes.getD ai emptyArch).insertRow s.cap s.nextId
      ((canon (tm.map Prod.fst)).map (fun t => (tmplGet tm t).getD 0)) with ⟨a2, ci, sl⟩
  obtain ⟨hfc, hfr, hfl, hfn⟩ := archetypeFor_fields hA
  rw [spawn_eq hA hB]
  obtain ⟨hP, hI2, hI3, hI4, hI5, hI6, hI7, hI8, hI9, hI10, hI11, hI12⟩ :=
    insert_phys (T := { cap := s1.cap, archetypes := s1.archetypes.set ai a2,
                        refs := s1.refs ++ [(s.nextId : Int)],
                        locs := s1.locs ++ [some { arch := ai, chunk := ci, slot := sl }],
                        nextId := s.nextId + 1 })
      hphys (canon_sorted _) (canon_nodup _) (by simp) hA hB hfc rfl
  have hllen1 : s1.locs.length = s.nextId := by rw [hfl]; exact hlocsLen
  refine ⟨ai, ci, sl, ?_, hI2, hI4, rfl, hI3, ?_, ?_⟩
  · show (s1.locs ++ [some (EntityLoc.mk ai ci sl)]).getD s.nextId none = _
    rw [← hllen1, getD_append_len]
  · intro e he
    show (s1.locs ++ [some (EntityLoc.mk ai ci sl)]).getD e none = _
    rcases Nat.lt_trichotomy e s.nextId with hlt | heq | hgt
    · rw [getD_append_lt _ _ _ _ (by omega), hfl]
    · exact absurd heq he
    · rw [getD_append_gt _ _ _ _ (by omega)]
      rw [getD_oob _ _ _ (by omega)]
  · intro j hj
    have h5 := hI5 j hj
    show (Store.archAt _ j).sig = (s.archAt j).sig
    rw [h5]

theorem archetypeFor_no_new {s : Store} {sig : Signature}
    (hmem : sig ∈ s.archetypes.map Archetype.sig) :
    (s.archetypeFor sig).2 = s ∧
    s.sigAt (s.archetypeFor sig).1 = sig ∧
    (s.archetypeFor sig).1 < s.archetypes.length := by
  rcases hA : s.archetypeFor sig with ⟨ai, s1⟩
  obtain ⟨hA1, hA2, hA3, hA4, hA5⟩ := archetypeFor_spec hA
  rcases hA5 with heq | ⟨hap, hlen, hnm, hga⟩
  · subst heq
    exact ⟨rfl, hA2, hA1⟩
  · exact absurd hmem hnm

theorem sigAt_inj {s : Store} (hsigs : (s.archetypes.map Archetype.sig).Nodup)
    {i j : Nat} (hi : i < s.archetypes.length) (hj : j < s.archetypes.length)
    (h : s.sigAt i = s.sigAt j) : i = j := by
  have hmi : (s.archetypes.map Archetype.sig).getD i [] = s.sigAt i := by
    rw [getD_map Archetype.sig _ _ emptyArch _ hi]
    rfl
  have hmj : (s.archetypes.map Archetype.sig).getD j [] = s.sigAt j := by
    rw [getD_map Archetype.sig _ _ emptyArch _ hj]
    rfl
  refine getD_nodup_inj hsigs i j [] ?_ ?_ ?_
  · rw [List.length_map]; exact hi
  · rw [List.length_map]; exact hj
  · rw [hmi, hmj, h]

theorem spawn_perm_same_archetype {s : Store} (hwf : StoreWF s) {t1 t2 : Template}
    (hperm : (t1.map Prod.fst).Perm (t2.map Prod.fst)) :
    ∃ l1 l2 : EntityLoc,
      ((s.spawn t1).spawn t2).locs.getD s.nextId none = some l1 ∧
      ((s.spawn t1).spawn t2).locs.getD (s.spawn t1).nextId none = some l2 ∧
      l1.arch = l2.arch := by
  have hwf1 : StoreWF (s.spawn t1) := wf_spawn hwf t1
  have hwf2 : StoreWF ((s.spawn t1).spawn t2) := wf_spawn hwf1 t2
  obtain ⟨a1, c1, sl1, hL1, hA1lt, hS1, hN1, hlen1, hPres1, hSig1⟩ :=
    spawn_newEntity hwf t1
  obtain ⟨a2, c2, sl2, hL2, hA2lt, hS2, hN2, hlen2, hPres2, hSig2⟩ :=
    spawn_newEntity hwf1 t2
  have hne : s.nextId ≠ (s.spawn t1).nextId := by rw [hN1]; omega
  have hL1' : ((s.spawn t1).spawn t2).locs.getD s.nextId none =
      some (EntityLoc.mk a1 c1 sl1) := by
    rw [hPres2 s.nextId hne]
    exact hL1
  refine ⟨EntityLoc.mk a1 c1 sl1, EntityLoc.mk a2 c2 sl2, hL1', hL2, ?_⟩
  show a1 = a2
  by_cases haa : a1 = a2
  · exact haa
  · have hsig1 : ((s.spawn t1).spawn t2).sigAt a1 = canon (t1.map Prod.fst) := by
      rw [hSig2 a1 haa]
      exact hS1
    have hsig2 : ((s.spawn t1).spawn t2).sigAt a2 = canon (t1.map Prod.fst) := by
      rw [hS2]
      exact (canon_eq_of_perm _ _ hperm).symm
    exact sigAt_inj hwf2.phys.sigsNodup
      (Nat.lt_of_lt_of_le hA1lt hlen2) hA2lt (hsig1.trans hsig2.symm)

theorem migrate_refs (s : Store) (r : Ref) (loc : EntityLoc) (newSig : Signature)
    (vals : List Val) : (s.migrate r loc newSig vals).refs = s.refs := by
  rcases hA : s.archetypeFor newSig with ⟨ai, s1⟩
  obtain ⟨hfc, hfr, hfl, hfn⟩ := archetypeFor_fields hA
  simp only [Store.migrate, hA]
  exact hfr

theorem applyAddComponent_refs (s : Store) (r : Ref) (t : TypeId) (v : Val) :
    (s.applyAddComponent r t v).refs = s.refs := by
  cases hres : s.resolve r with
  | none => simp only [Store.applyAddComponent, hres]
  | some loc =>
    by_cases hmem : t ∈ (s.archetypes.getD loc.arch emptyArch).sig
    · simp only [Store.applyAddComponent, hres, if_pos hmem]
      cases hk : findIdxP (fun u => decide (u = t))
          (s.archetypes.getD loc.arch emptyArch).sig with
      | none => rfl
      | some k => rfl
    · simp only [Store.applyAddComponent, hres, if_neg hmem]
      exact migrate_refs s r loc _ _

theorem applyRemoveComponent_refs (s : Store) (r : Ref) (t : TypeId) :
    (s.applyRemoveComponent r t).refs = s.refs := by
  cases hres : s.resolve r with
  | none => simp only [Store.applyRemoveComponent, hres]
  | some loc =>
    by_cases hmem : t ∈ (s.archetypes.getD loc.arch emptyArch).sig
    · simp only [Store.applyRemoveComponent, hres, if_pos hmem]
      exact migrate_refs s r loc _ _
    · simp only [Store.applyRemoveComponent, hres, if_neg hmem]

theorem despawn_moves_last {s : Store} (hwf : StoreWF s) {r : Ref} {loc : EntityLoc}
    (hres : s.resolve r = some loc)
    (hcase : loc.slot ≠ s.chunkCount loc.arch loc.chunk - 1) :
    (s.despawn r).entityAt loc.arch loc.chunk loc.slot =
      s.entityAt loc.arch loc.chunk (s.chunkCount loc.arch loc.chunk - 1) := by
  obtain ⟨hridx, hrloc, hslt, hrent⟩ := resolve_some_spec hwf hres
  rw [despawn_eq hres]
  obtain ⟨hP, hDlen, hDsig, hDarch, hDcnt, hDcnt2, hDlast, hDmove, hDother, hDoff, hDval⟩ :=
    removeSlot_phys (T := { s with
      archetypes := s.archetypes.set loc.arch
        { s.archetypes.getD loc.arch emptyArch with
          chunks := (s.archetypes.getD loc.arch emptyArch).chunks.set loc.chunk
            ((s.chunkAt loc.arch loc.chunk).swapRemove loc.slot) },
      locs := (if loc.slot = s.chunkCount loc.arch loc.chunk - 1 then s.locs
        else match s.entityAt loc.arch loc.chunk (s.chunkCount loc.arch loc.chunk - 1) with
          | some m => s.locs.set m (some (EntityLoc.mk loc.arch loc.chunk loc.slot))
          | none => s.locs).set (s.refIndex r).toNat none,
      refs := s.refs.set r.id MIN_VALUE }) hwf.phys hslt rfl rfl
  exact hDmove hcase

theorem bind_nil_of {α β : Type} (l : List α) (f : α → List β)
    (h : ∀ x ∈ l, f x = []) : l.bind f = [] := by
  induction l with
  | nil => rfl
  | cons x xs ih =>
    have hx := h x (List.mem_cons_self _ _)
    simp [List.bind, hx, ih (fun y hy => h y (List.mem_cons_of_mem _ hy))]

theorem kahn_no_edges (fuel : Nat) (rem : List Nat) (h : rem.length ≤ fuel) :
    kahn [] fuel rem = some rem := by
  induction fuel generalizing rem with
  | zero =>
    cases rem with
    | nil => rfl
    | cons x xs => simp at h
  | succ n ih =>
    cases rem with
    | nil => rfl
    | cons x xs =>
      show kahn [] (n + 1) (x :: xs) = some (x :: xs)
      simp only [kahn]
      rw [if_neg (by simp)]
      have hp : pick [] (x :: xs) = some x := by simp [pick]
      rw [hp]
      show Option.map (fun l => x :: l) (kahn [] n ((x :: xs).erase x)) = some (x :: xs)
      rw [List.erase_cons_head, ih xs (by simpa using h)]
      rfl

theorem schedule_no_deps (ds : List SystemDecl)
    (h : ∀ d ∈ ds, d.befores = [] ∧ d.afters = []) :
    schedule ds = some (List.range ds.length) := by
  have hedges : edgesOf ds = [] := by
    apply bind_nil_of
    intro i hi
    have hilt : i < ds.length := List.mem_range.mp hi
    have hd := h (ds.getD i ⟨[], []⟩) (getD_mem_of_lt _ _ _ hilt)
    rw [hd.1, hd.2]
    rfl
  rw [schedule, hedges, kahn_no_edges _ _ (by simp)]

/-! ## The claims -/

/-- C1: Query evaluation is a boolean predicate over archetype signatures:
`and(A,B)` matches `S` iff `S` contains both `A` and `B`; `or(A,B)` iff it
contains at least one; `not(A)` iff it lacks `A`; `any()` matches every
signature. -/
theorem query_matches_semantics (S : Signature) (a b : TypeId) :
    ((Query.and (Query.comp a) (Query.comp b)).matches S = true ↔ a ∈ S ∧ b ∈ S) ∧
    ((Query.or (Query.comp a) (Query.comp b)).matches S = true ↔ a ∈ S ∨ b ∈ S) ∧
    ((Query.not (Query.comp a)).matches S = true ↔ a ∉ S) ∧
    (Query.any.matches S = true) := by
  simp [Query.matches]

/-- C2: Deferred visibility of structural mutations: a command queued on
the buffer changes no `getComponent`/`getArchetype` read of the store,
and its effect appears exactly at the next flush point, after the
commands queued before it. -/
theorem commandBuffer_deferred_visibility (w : World) (c : Cmd) (r : Ref) (t : TypeId) :
    (w.enqueue c).store.getComponent r t = w.store.getComponent r t ∧
    (w.enqueue c).store.getArchetype r = w.store.getArchetype r ∧
    ((w.enqueue c).flush).store = ((w.flush).store).applyCmd c := by
  refine ⟨rfl, rfl, ?_⟩
  show (w.buffer ++ [c]).foldl Store.applyCmd w.store = _
  rw [List.foldl_append]
  rfl

/-- C3: Ref invalidation on entity removal: after a RemoveEntity command
for a resolvable Ref is applied at a flush, `isValid` is false on that
Ref and on every alias of it (any Ref object sharing its index slot),
the index having been set to the reserved sentinel. -/
theorem removeEntity_invalidates_refs {s : Store} (hwf : StoreWF s) {r : Ref}
    {loc : EntityLoc} (hres : s.resolve r = some loc) (r2 : Ref)
    (hid : r2.id = r.id) :
    (World.flush (World.mk s [Cmd.removeEntity r])).store.isValid r2 = false := by
  obtain ⟨hridx, hrloc, hslt, hrent⟩ := resolve_some_spec hwf hres
  have hlt : r.id < s.refs.length := by
    have h1 := getD_some_lt hrloc
    rw [hwf.locsLen] at h1
    rw [hwf.refsLen]
    exact h1
  show (s.despawn r).isValid r2 = false
  have hrefs : (s.despawn r).refs = s.refs.set r.id MIN_VALUE := by
    rw [despawn_eq hres]
  have h2 : (s.despawn r).refIndex r2 = MIN_VALUE := by
    show (s.despawn r).refs.getD r2.id MIN_VALUE = MIN_VALUE
    rw [hrefs, hid, getD_set_self _ _ _ _ hlt]
  show ((s.despawn r).refIndex r2 != MIN_VALUE) = false
  rw [h2]
  simp

/-- C4: Swap-remove density: in every store reachable by applied
commands, every chunk's occupied slots — in the entity column and in
every component column — are exactly the contiguous prefix
`[0, count)`; and removal fills the freed slot with the entity from the
last occupied slot. -/
theorem reach_chunk_density :
    (∀ (cap : Nat) (cmds : List Cmd), 0 < cap → ∀ ai ci,
      ai < (Store.reach cap cmds).archetypes.length →
      ci < ((Store.reach cap cmds).archAt ai).chunks.length →
      (∀ j, ((Store.reach cap cmds).entityAt ai ci j).isSome = true ↔
        j < (Store.reach cap cmds).chunkCount ai ci) ∧
      (∀ k j, k < ((Store.reach cap cmds).sigAt ai).length →
        (((Store.reach cap cmds).valueAt ai ci k j).isSome = true ↔
          j < (Store.reach cap cmds).chunkCount ai ci))) ∧
    (∀ (s : Store) (r : Ref) (loc : EntityLoc), StoreWF s →
      s.resolve r = some loc →
      loc.slot ≠ s.chunkCount loc.arch loc.chunk - 1 →
      (s.despawn r).entityAt loc.arch loc.chunk loc.slot =
        s.entityAt loc.arch loc.chunk (s.chunkCount loc.arch loc.chunk - 1)) := by
  constructor
  · intro cap cmds hcap ai ci hai hci
    have hwf : StoreWF (Store.reach cap cmds) := wf_reach cap hcap cmds
    obtain ⟨hc1, hc2, ⟨helen, helo, hehi⟩, hcols⟩ := hwf.phys.chunksWF ai ci hai hci
    constructor
    · intro j
      constructor
      · intro h1
        by_contra hc
        rw [show (Store.reach cap cmds).entityAt ai ci j = none from
          hehi j (Nat.le_of_not_lt hc)] at h1
        simp at h1
      · exact helo j
    · intro k j hk
      obtain ⟨hvlen, hvlo, hvhi⟩ := hcols k hk
      constructor
      · intro h1
        by_contra hc
        rw [show (Store.reach cap cmds).valueAt ai ci k j = none from
          hvhi j (Nat.le_of_not_lt hc)] at h1
        simp at h1
      · exact hvlo j
  · intro s r loc hwf hres hcase
    exact despawn_moves_last hwf hres hcase

/-- C5: Archetype canonicalization: in a well-formed store two entities
whose archetype signatures are permutations of one another share one
archetype; spawning two entities from permuted templates lands them in
one archetype; no two archetypes of a reachable store have an identical
signature; and `archetypeFor` returns the existing archetype (creating
nothing) whenever one with an equal signature exists. -/
theorem archetype_canonicalization :
    (∀ (s : Store), StoreWF s → ∀ e1 e2 l1 l2,
      s.locs.getD e1 none = some l1 → s.locs.getD e2 none = some l2 →
      (s.sigAt l1.arch).Perm (s.sigAt l2.arch) → l1.arch = l2.arch) ∧
    (∀ (s : Store), StoreWF s → ∀ (t1 t2 : Template),
      (t1.map Prod.fst).Perm (t2.map Prod.fst) →
      ∃ l1 l2 : EntityLoc,
        ((s.spawn t1).spawn t2).locs.getD s.nextId none = some l1 ∧
        ((s.spawn t1).spawn t2).locs.getD (s.spawn t1).nextId none = some l2 ∧
        l1.arch = l2.arch) ∧
    (∀ cap cmds, 0 < cap →
      ((Store.reach cap cmds).archetypes.map Archetype.sig).Nodup) ∧
    (∀ (s : Store) (sig : Signature), sig ∈ s.archetypes.map Archetype.sig →
      (s.archetypeFor sig).2 = s ∧ s.sigAt (s.archetypeFor sig).1 = sig ∧
      (s.archetypeFor sig).1 < s.archetypes.length) := by
  refine ⟨?_, ?_, ?_, ?_⟩
  · intro s hwf e1 e2 l1 l2 h1 h2 hperm
    obtain ⟨hc1, _⟩ := hwf.locSound e1 l1 h1
    obtain ⟨hc2, _⟩ := hwf.locSound e2 l2 h2
    have ha1 := (chunkCount_pos_ranges (Nat.lt_of_le_of_lt (Nat.zero_le _) hc1)).1
    have ha2 := (chunkCount_pos_ranges (Nat.lt_of_le_of_lt (Nat.zero_le _) hc2)).1
    have heq : s.sigAt l1.arch = s.sigAt l2.arch :=
      List.eq_of_perm_of_sorted hperm (hwf.phys.archSorted _ ha1)
        (hwf.phys.archSorted _ ha2)
    exact sigAt_inj hwf.phys.sigsNodup ha1 ha2 heq
  · intro s hwf t1 t2 hperm
    exact spawn_perm_same_archetype hwf hperm
  · intro cap cmds hcap
    exact (wf_reach cap hcap cmds).phys.sigsNodup
  · intro s sig hmem
    exact archetypeFor_no_new hmem

/-- C6: Migration round trip preserves shared data: for an entity lacking
component type `t`, applying AddComponent(t, v) at one flush and
RemoveComponent(t) at the next leaves every other component value
readable via `getComponent` unchanged, and the per-Ref index table is
unchanged across the two migrations. -/
theorem add_remove_round_trip {s : Store} (hwf : StoreWF s) {r : Ref}
    {loc : EntityLoc} (hres : s.resolve r = some loc) {t : TypeId}
    (hmem : t ∉ s.sigAt loc.arch) (v : Val) :
    (∀ u, u ≠ t →
      (World.flush (World.mk
        (World.flush (World.mk s [Cmd.addComponent r t v])).store
        [Cmd.removeComponent r t])).store.getComponent r u =
        s.getComponent r u) ∧
    (World.flush (World.mk
      (World.flush (World.mk s [Cmd.addComponent r t v])).store
      [Cmd.removeComponent r t])).store.refs = s.refs := by
  obtain ⟨hridx, hrloc, hslt, hrent⟩ := resolve_some_spec hwf hres
  have hwf1 : StoreWF (s.applyAddComponent r t v) := wf_applyAddComponent hwf r t v
  have hlt := (chunkCount_pos_ranges (Nat.lt_of_le_of_lt (Nat.zero_le _) hslt)).1
  have hnodup : ((s.archetypes.getD loc.arch emptyArch).sig).Nodup :=
    hwf.phys.archNodup loc.arch hlt
  have hmem' : t ∉ (s.archetypes.getD loc.arch emptyArch).sig := hmem
  have hdiff : canon (t :: (s.archetypes.getD loc.arch emptyArch).sig) ≠
      s.sigAt loc.arch := canon_cons_ne hnodup hmem'
  have heq : s.applyAddComponent r t v =
      s.migrate r loc (canon (t :: (s.archetypes.getD loc.arch emptyArch).sig))
        ((canon (t :: (s.archetypes.getD loc.arch emptyArch).sig)).map
          (fun u2 => if u2 = t then v else (s.readAt loc u2).getD 0)) := by
    simp only [Store.applyAddComponent, hres, if_neg hmem']
  obtain ⟨hWF, hrefs1, ⟨loc2, hl, hsig2, halt, hvals⟩, hcap1, hnid1⟩ :=
    migrate_spec hwf hres (canon_sorted _) (canon_nodup _) hdiff
      (show ((canon (t :: (s.archetypes.getD loc.arch emptyArch).sig)).map
        (fun u2 => if u2 = t then v else (s.readAt loc u2).getD 0)).length =
        (canon (t :: (s.archetypes.getD loc.arch emptyArch).sig)).length by simp)
  have hres1 : (s.applyAddComponent r t v).resolve r = some loc2 := by
    rw [heq]
    exact resolve_eq_of_refs hridx hrefs1 hl
  have hmem1 : t ∈ (s.applyAddComponent r t v).sigAt loc2.arch := by
    rw [heq]
    rw [hsig2]
    exact (mem_canon t _).mpr (List.mem_cons_self _ _)
  have hreads1 := applyAddComponent_reads hwf hres hmem v
  have hreads2 := applyRemoveComponent_reads hwf1 hres1 hmem1
  constructor
  · intro u hu
    show ((s.applyAddComponent r t v).applyRemoveComponent r t).getComponent r u =
      s.getComponent r u
    rw [hreads2 u, if_neg hu, hreads1 u, if_neg hu]
  · show ((s.applyAddComponent r t v).applyRemoveComponent r t).refs = s.refs
    rw [applyRemoveComponent_refs, applyAddComponent_refs]

/-- C7: Component-absence behavior: on a resolvable Ref, if the entity's
archetype lacks the type then `getComponent` returns absent while
`ensureAndGetComponent` signals `MissingComponentError`; if it contains
the type, both return the same value. -/
theorem component_absence_behavior {s : Store} (hwf : StoreWF s) {r : Ref}
    {loc : EntityLoc} (hres : s.resolve r = some loc) (t : TypeId) :
    (t ∉ s.sigAt loc.arch →
      s.getComponent r t = none ∧
      s.ensureAndGetComponent r t = Except.error MissingComponentError.missing) ∧
    (t ∈ s.sigAt loc.arch →
      ∃ w, s.getComponent r t = some w ∧
        s.ensureAndGetComponent r t = Except.ok w) := by
  constructor
  · intro hmem
    have h1 : s.getComponent r t = none := by
      rw [getComponent_eq_readAt hres, readAt_not_mem hmem]
    refine ⟨h1, ?_⟩
    simp only [Store.ensureAndGetComponent, h1]
  · intro hmem
    rcases readAt_mem_some hwf hres hmem with ⟨w, hw⟩
    have h1 : s.getComponent r t = some w := by
      rw [getComponent_eq_readAt hres]
      exact hw
    exact ⟨w, h1, by simp only [Store.ensureAndGetComponent, h1]⟩

/-- C8 (amended): the frozen claim — every pair of systems with no
dependency path between them appears in registration order — is false
for any completion of a topological order (see the counterexample); what
holds is the spec's concrete scenario: with no declared dependencies at
all, the computed schedule is exactly the registration order. -/
theorem scheduler_tie_break (ds : List SystemDecl)
    (h : ∀ d ∈ ds, d.befores = [] ∧ d.afters = []) :
    schedule ds = some (List.range ds.length) :=
  schedule_no_deps ds h

/-- C8 counterexample: with systems `0`, `1`, `2` where `2` declares
`before(0)`, the schedule is `[1, 2, 0]`; the pair `(0, 1)` has no
dependency path either way yet appears against registration order, so
the per-pair claim fails. -/
theorem scheduler_claim_counterexample : ¬ schedulerClaim := by
  intro h
  have h2 := h [⟨[], []⟩, ⟨[], []⟩, ⟨[0], []⟩] [1, 2, 0] (by decide) 0 1
    (by decide) (by decide) (by decide) (by decide)
  exact absurd h2 (by decide)

/-- C9: The reserved sentinel index is exactly `Integer.MIN_VALUE`:
`isValid` is true iff the Ref's index differs from the sentinel; in every
reachable store a Ref's index is either the sentinel or its own
(non-sentinel) slot id, and validity coincides with the entity's
bookkeeping being present. -/
theorem sentinel_isValid (cap : Nat) (h : 0 < cap) (cmds : List Cmd) (r : Ref) :
    ((Store.reach cap cmds).isValid r = true ↔
      (Store.reach cap cmds).refIndex r ≠ MIN_VALUE) ∧
    ((Store.reach cap cmds).refIndex r = MIN_VALUE ∨
      (Store.reach cap cmds).refIndex r = (r.id : Int)) ∧
    ((Store.reach cap cmds).isValid r = true ↔
      ((Store.reach cap cmds).locs.getD r.id none).isSome = true) := by
  have hwf : StoreWF (Store.reach cap cmds) := wf_reach cap h cmds
  have hb : ((Store.reach cap cmds).isValid r = true ↔
      (Store.reach cap cmds).refIndex r ≠ MIN_VALUE) := by
    show (((Store.reach cap cmds).refIndex r != MIN_VALUE) = true ↔ _)
    simp
  exact ⟨hb, hwf.refsVal r.id, hb.trans (hwf.refsLoc r.id)⟩

/-- C10: HealthComponent clamping: `setCurrentHealth(h)` sets
`currentHealth` to `min h maxHealth` (so never above `maxHealth`), and
for non-negative `amount`, `damage(amount)` sets it to
`max 0 (currentHealth - amount)` (so never negative); neither touches
`maxHealth`. -/
theorem healthComponent_clamping (c : HealthComponent) (h : ℚ) (amount : ℚ)
    (hamt : 0 ≤ amount) :
    ((c.setCurrentHealth h).currentHealth = min h c.maxHealth ∧
     (c.setCurrentHealth h).currentHealth ≤ c.maxHealth ∧
     (c.setCurrentHealth h).maxHealth = c.maxHealth) ∧
    ((c.damage amount).currentHealth = max 0 (c.currentHealth - amount) ∧
     0 ≤ (c.damage amount).currentHealth ∧
     (c.damage amount).maxHealth = c.maxHealth) := by
  refine ⟨⟨rfl, ?_, rfl⟩, ⟨rfl, ?_, rfl⟩⟩
  · exact min_le_right _ _
  · exact le_max_left _ _

/-- C3 witness: a concrete spawned entity's Ref fails `isValid` after the
RemoveEntity flush. -/
theorem removeEntity_invalidates_refs_witness :
    (World.flush (World.mk ((Store.init 1).spawn [])
      [Cmd.removeEntity (Ref.mk 0)])).store.isValid (Ref.mk 0) = false :=
  removeEntity_invalidates_refs (wf_spawn (wf_init 1 (by decide)) [])
    (show ((Store.init 1).spawn []).resolve (Ref.mk 0) =
      some (EntityLoc.mk 0 0 0) by decide)
    (Ref.mk 0) rfl

/-- C4 witness: the density characterization at a concrete reachable
store and chunk slot. -/
theorem reach_chunk_density_witness :
    (((Store.reach 1 [Cmd.addEntity [(0, 5)]]).entityAt 0 0 0).isSome = true ↔
      0 < (Store.reach 1 [Cmd.addEntity [(0, 5)]]).chunkCount 0 0) :=
  (reach_chunk_density.1 1 [Cmd.addEntity [(0, 5)]] (by decide) 0 0 (by decide)
    (by decide)).1 0

/-- C5 witness: two spawns from permuted templates land in one
archetype in a concrete store. -/
theorem archetype_canonicalization_witness :
    ∃ l1 l2 : EntityLoc,
      (((Store.init 1).spawn [(0, 1), (1, 2)]).spawn [(1, 5), (0, 9)]).locs.getD
        (Store.init 1).nextId none = some l1 ∧
      (((Store.init 1).spawn [(0, 1), (1, 2)]).spawn [(1, 5), (0, 9)]).locs.getD
        ((Store.init 1).spawn [(0, 1), (1, 2)]).nextId none = some l2 ∧
      l1.arch = l2.arch :=
  archetype_canonicalization.2.1 (Store.init 1) (wf_init 1 (by decide))
    [(0, 1), (1, 2)] [(1, 5), (0, 9)] (by decide)

/-- C6 witness: a concrete add/remove round trip leaves the other
component's read and the index table unchanged. -/
theorem add_remove_round_trip_witness :
    (World.flush (World.mk
      (World.flush (World.mk ((Store.init 1).spawn [(0, 7)])
        [Cmd.addComponent (Ref.mk 0) 1 9])).store
      [Cmd.removeComponent (Ref.mk 0) 1])).store.getComponent (Ref.mk 0) 0 =
      ((Store.init 1).spawn [(0, 7)]).getComponent (Ref.mk 0) 0 ∧
    (World.flush (World.mk
      (World.flush (World.mk ((Store.init 1).spawn [(0, 7)])
        [Cmd.addComponent (Ref.mk 0) 1 9])).store
      [Cmd.removeComponent (Ref.mk 0) 1])).store.refs =
      ((Store.init 1).spawn [(0, 7)]).refs :=
  ⟨(add_remove_round_trip (wf_spawn (wf_init 1 (by decide)) [(0, 7)])
      (show ((Store.init 1).spawn [(0, 7)]).resolve (Ref.mk 0) =
        some (EntityLoc.mk 0 0 0) by decide)
      (show (1 : TypeId) ∉ ((Store.init 1).spawn [(0, 7)]).sigAt 0 by decide)
      9).1 0 (by decide),
   (add_remove_round_trip (wf_spawn (wf_init 1 (by decide)) [(0, 7)])
      (show ((Store.init 1).spawn [(0, 7)]).resolve (Ref.mk 0) =
        some (EntityLoc.mk 0 0 0) by decide)
      (show (1 : TypeId) ∉ ((Store.init 1).spawn [(0, 7)]).sigAt 0 by decide)
      9).2⟩

/-- C7 witness: a concrete entity without the requested type yields
absent from `getComponent` and an error from `ensureAndGetComponent`. -/
theorem component_absence_behavior_witness :
    ((Store.init 1).spawn [(0, 5)]).getComponent (Ref.mk 0) 1 = none ∧
    ((Store.init 1).spawn [(0, 5)]).ensureAndGetComponent (Ref.mk 0) 1 =
      Except.error MissingComponentError.missing :=
  (component_absence_behavior (wf_spawn (wf_init 1 (by decide)) [(0, 5)])
    (show ((Store.init 1).spawn [(0, 5)]).resolve (Ref.mk 0) =
      some (EntityLoc.mk 0 0 0) by decide) 1).1 (by decide)

/-- C8 witness: two systems with no declared dependencies tick in
registration order. -/
theorem scheduler_tie_break_witness :
    schedule [SystemDecl.mk [] [], SystemDecl.mk [] []] =
      some (List.range 2) :=
  scheduler_tie_break [SystemDecl.mk [] [], SystemDecl.mk [] []] (by decide)

/-- C9 witness: a concrete reachable store's Ref index is the sentinel or
the slot id. -/
theorem sentinel_isValid_witness :
    (Store.reach 1 []).refIndex (Ref.mk 0) = MIN_VALUE ∨
      (Store.reach 1 []).refIndex (Ref.mk 0) = ((Ref.mk 0).id : Int) :=
  (sentinel_isValid 1 (by decide) [] (Ref.mk 0)).2.1

/-- C10 witness: concrete damage is clamped at zero and leaves
`maxHealth` alone. -/
theorem healthComponent_clamping_witness :
    0 ≤ ((HealthComponent.mk 100 50).damage 30).currentHealth ∧
    ((HealthComponent.mk 100 50).damage 30).maxHealth =
      (HealthComponent.mk 100 50).maxHealth :=
  ⟨(healthComponent_clamping (HealthComponent.mk 100 50) 70 30 (by decide)).2.2.1,
   (healthComponent_clamping (HealthComponent.mk 100 50) 70 30 (by decide)).2.2.2⟩

end ECS
